import Mathlib

/-
Verification development for the cognify knowledge pipeline
(src/src/knowledge/extractor.py, mapper.py, journey.py).

The Python sources are shallowly embedded: pure functions become Lean
functions over List/String/Nat/Rat; Python dict and set idioms become
association lists with explicit first-insertion key order; code that can
raise returns Except PyErr; the spaCy annotation object, the networkx
spring layout, the community partition and the random module are inputs
(oracles) to the embedded functions, since they are external collaborators
of the repository.  Python float arithmetic is modelled by exact rational
arithmetic.  Machine-level behaviour (interning, hashing) is irrelevant to
every statement proved here.
-/

namespace Cognify

/-- Python exceptions that the embedded code can raise. -/

inductive PyErr where
  | keyError (key : String)
  | nameError (name : String)
deriving Repr, DecidableEq

/-! ## Python string primitives

All of these work on the underlying character list so that the kernel can
evaluate them on concrete inputs. -/

/-- Whitespace test matching Python str.split / str.strip and the regex
class backslash-s (space, tab, newline, carriage return, vertical tab,
form feed). -/

def isWs (c : Char) : Bool :=
  c.toNat = 32 || c.toNat = 9 || c.toNat = 10 || c.toNat = 13 ||
  c.toNat = 11 || c.toNat = 12

/-- Python str.lower, one character; ASCII case folding as performed by
str.lower on the inputs this code sees. -/

def lowerChar (c : Char) : Char := Char.toLower c

/-- Python str.lower on a whole string. -/

def lowerStr (s : String) : String := ⟨s.data.map lowerChar⟩

/-- Python str.strip with no arguments on a character list. -/

def stripList (l : List Char) : List Char :=
  ((l.dropWhile isWs).reverse.dropWhile isWs).reverse

/-- Python str.strip with no arguments. -/

def stripStr (s : String) : String := ⟨stripList s.data⟩

/-- Auxiliary for collapseList; the flag records whether the previous
character was whitespace. -/

def collapseAux : Bool → List Char → List Char
  | _, [] => []
  | prevWs, c :: rest =>
    if isWs c then
      if prevWs then collapseAux true rest
      else ' ' :: collapseAux true rest
    else c :: collapseAux false rest

/-- Python re.sub of one or more whitespace characters by a single space. -/

def collapseList (l : List Char) : List Char := collapseAux false l

/-- Auxiliary for splitWs; accumulates the current word reversed. -/

def splitWsAux : List Char → List Char → List (List Char)
  | cur, [] => if cur.isEmpty then [] else [cur.reverse]
  | cur, c :: rest =>
    if isWs c then
      if cur.isEmpty then splitWsAux [] rest
      else cur.reverse :: splitWsAux [] rest
    else splitWsAux (c :: cur) rest

/-- Python str.split with no arguments: split on whitespace runs and drop
empty pieces. -/

def splitWs (s : String) : List String :=
  (splitWsAux [] s.data).map fun l => ⟨l⟩

/-- Test that one character list starts with another. -/

def startsWithList : List Char → List Char → Bool
  | [], _ => true
  | _ :: _, [] => false
  | a :: as, b :: bs => a = b && startsWithList as bs

/-- Substring test on character lists. -/

def containsList (sub : List Char) : List Char → Bool
  | [] => startsWithList sub []
  | c :: rest => startsWithList sub (c :: rest) || containsList sub rest

/-- Python membership test sub in s on strings (substring containment). -/

def strIn (sub s : String) : Bool := containsList sub.data s.data

/-- Auxiliary for pyDedup carrying the set of already seen elements. -/

def pyDedupAux {α : Type} [DecidableEq α] (seen : List α) : List α → List α
  | [] => []
  | x :: rest =>
    if x ∈ seen then pyDedupAux seen rest
    else x :: pyDedupAux (x :: seen) rest

/-- Key list of a Python dict built by repeated insertion: first
occurrences, in order. -/

def pyDedup {α : Type} [DecidableEq α] (l : List α) : List α := pyDedupAux [] l

/-! ## Stable sorting and Counter

Python list.sort and sorted are stable; insertion sort with a reflexive
total relation realizes the same stable order, and it evaluates inside the
kernel. -/

/-- Python collections.Counter over a list of strings: distinct keys in
first occurrence order, each with its multiplicity. -/

def counterPairs (l : List String) : List (String × Nat) :=
  (pyDedup l).map fun k => (k, l.count k)

/-- Python Counter.most_common with an argument: pairs sorted by count
descending (stable), truncated. -/

def mostCommon (l : List String) (n : Nat) : List (String × Nat) :=
  (List.insertionSort (fun a b : String × Nat => b.2 ≤ a.2) (counterPairs l)).take n

/-! ## Annotation model

The spaCy pipeline is an external collaborator; its output (sentences,
tokens with part of speech, stop flag and dependency edge, noun chunk
spans, named entities) is the input of the embedded extractor functions. -/

/-- Token of the annotated document; headText is the text of the head
token of its dependency edge. -/

structure Tok where
  text : String
  pos : String
  dep : String
  headText : String
  isStop : Bool
deriving Repr, DecidableEq

/-- Sentence of the annotated document. -/

structure Sent where
  text : String
  tokens : List Tok
deriving Repr, DecidableEq

/-- Named entity span of the annotated document. -/

structure Ent where
  text : String
  label : String
deriving Repr, DecidableEq

/-- Annotated document: the value returned by the nlp collaborator. -/

structure Doc where
  sents : List Sent
  chunks : List String
  ents : List Ent
deriving Repr, DecidableEq

/-- Tokens of the document, in order; iteration over the doc object. -/

def docTokens (d : Doc) : List Tok := d.sents.flatMap (·.tokens)

/-- Python len of the doc object: its token count. -/

def docLen (d : Doc) : Nat := (docTokens d).length

/-- Concept record produced by the extractor. -/

structure Concept where
  text : String
  type : String
  frequency : Nat
  importance : ℚ
deriving Repr, DecidableEq

/-- Entity labels accepted by concept extraction (extractor.py line 84). -/

def entityLabels : List String :=
  ["ORG", "PERSON", "GPE", "LOC", "PRODUCT", "EVENT", "WORK_OF_ART", "LAW"]

/-- Cleaned noun phrase text (extractor.py line 74): strip, lower,
collapse whitespace runs to single spaces. -/

def cleanPhrase (ch : String) : String :=
  ⟨collapseList (lowerStr (stripStr ch)).data⟩

/-- Cleaned noun phrases of the document (extractor.py lines 71 to 76):
keep nonempty cleaned phrases of at most five words. -/

def nounPhrases (d : Doc) : List String :=
  d.chunks.filterMap fun ch =>
    if cleanPhrase ch ≠ "" ∧ (splitWs (cleanPhrase ch)).length ≤ 5 then
      some (cleanPhrase ch)
    else none

/-- Named entities kept by the extractor (extractor.py lines 82 to 89):
label in the allow list, text stripped and whitespace collapsed. -/

def entitiesOf (d : Doc) : List Ent :=
  d.ents.filterMap fun e =>
    if e.label ∈ entityLabels then
      some ⟨⟨collapseList (stripStr e.text).data⟩, e.label⟩
    else none

/-- Key terms of the document (extractor.py lines 92 to 95): lowercased
non stop nouns and proper nouns longer than two characters. -/

def keyTerms (d : Doc) : List String :=
  (docTokens d).filterMap fun t =>
    if (t.pos = "NOUN" ∨ t.pos = "PROPN") ∧ t.isStop = false ∧
        t.text.data.length > 2 then
      some (lowerStr t.text)
    else none

/-- Stage one of concept ranking (extractor.py lines 102 to 110): the top
fifty noun phrases with frequency at least two. -/

def phraseStage (d : Doc) : List Concept :=
  (mostCommon (nounPhrases d) 50).filterMap fun p =>
    if p.2 ≥ 2 then
      some ⟨p.1, "noun_phrase", p.2, (p.2 : ℚ) / (docLen d : ℚ)⟩
    else none

/-- Stage two of concept ranking (extractor.py lines 112 to 121): the
loop over named entities, each appended unless an existing concept text
matches case insensitively. -/

def entityStage (cs : List Concept) : List Ent → List Concept
  | [] => cs
  | e :: rest =>
    if cs.any fun c => lowerStr c.text = lowerStr e.text then entityStage cs rest
    else entityStage (cs ++ [⟨e.text, e.label, 1, 4/5⟩]) rest

/-- Stage three of concept ranking (extractor.py lines 123 to 131): the
loop over the top thirty key terms, appending those with frequency at
least three whose term is not a word of an existing concept text. -/

def termStage (d : Doc) : List Concept → List (String × Nat) → List Concept
  | cs, [] => cs
  | cs, p :: rest =>
    if p.2 ≥ 3 ∧ ¬ cs.any fun c => p.1 ∈ splitWs (lowerStr c.text) then
      termStage d (cs ++ [⟨p.1, "key_term", p.2, (p.2 : ℚ) / (docLen d : ℚ)⟩]) rest
    else termStage d cs rest

/-- Embedding of KnowledgeExtractor._extract_concepts (extractor.py lines
65 to 137): rank noun phrases, entities and key terms, sort by importance
descending (Python sorts are stable) and keep the first hundred. -/

def extract_concepts (d : Doc) : List Concept :=
  let cs1 := phraseStage d
  let cs2 := entityStage cs1 (entitiesOf d)
  let cs3 := termStage d cs2 (mostCommon (keyTerms d) 30)
  (List.insertionSort (fun a b : Concept => b.importance ≤ a.importance) cs3).take 100

/-! ## Relationship extraction

The networkx undirected graph is embedded as an edge list with unordered
endpoint matching; the attribute dict of an edge stores weight, type and
the optional types list, whose absence on first access is exactly the
Python KeyError. -/

/-- Relationship record produced by the extractor. -/

structure Rel where
  source : String
  target : String
  weight : Nat
  type : String
  subtypes : List String
deriving Repr, DecidableEq

/-- Edge of the undirected relationship graph with its attribute dict. -/

structure UEdge where
  u : String
  v : String
  weight : Nat
  type : String
  types : Option (List String)
deriving Repr, DecidableEq

/-- Unordered endpoint match for an undirected edge. -/

def edgeMatches (e : UEdge) (a b : String) : Bool :=
  (e.u = a ∧ e.v = b) ∨ (e.u = b ∧ e.v = a)

/-- Python G.has_edge on the embedded edge list. -/

def hasEdge (es : List UEdge) (a b : String) : Bool :=
  es.any fun e => edgeMatches e a b

/-- Increment the weight attribute of the unordered edge a b. -/

def incEdgeWeight (es : List UEdge) (a b : String) : List UEdge :=
  es.map fun e => if edgeMatches e a b then { e with weight := e.weight + 1 } else e

/-- Mapping of lowercased concept text to original text (extractor.py
line 157); a Python dict comprehension keeps first key positions and last
values. -/

def conceptMap (cs : List Concept) : List (String × String) :=
  cs.foldl (fun acc c =>
    let k := lowerStr c.text
    if acc.any fun p => p.1 = k then
      acc.map fun p => if p.1 = k then (k, c.text) else p
    else acc ++ [(k, c.text)]) []

/-- Concepts whose lowercased text occurs in the lowercased sentence text
(extractor.py lines 160 to 167). -/

def sentenceConcepts (cs : List Concept) (s : Sent) : List String :=
  (conceptMap cs).filterMap fun p =>
    if strIn p.1 (lowerStr s.text) then some p.2 else none

/-- Ordered pairs i lt j of a list, in the order of the nested loops of
extractor.py lines 170 to 173. -/

def allPairs {α : Type} : List α → List (α × α)
  | [] => []
  | x :: rest => rest.map (fun y => (x, y)) ++ allPairs rest

/-- Add or reinforce one co-occurrence edge (extractor.py lines 175
to 179). -/

def addCoEdge (es : List UEdge) (a b : String) : List UEdge :=
  if hasEdge es a b then incEdgeWeight es a b
  else es ++ [⟨a, b, 1, "co-occurrence", none⟩]

/-- Co-occurrence phase of relationship extraction (extractor.py lines 159
to 179). -/

def coOccurrencePhase (d : Doc) (cs : List Concept) : List UEdge :=
  d.sents.foldl (fun es s =>
    (allPairs (sentenceConcepts cs s)).foldl (fun es2 p => addCoEdge es2 p.1 p.2) es) []

/-- Concept matched by a word using bidirectional substring containment
(extractor.py lines 195 to 201); the loop overwrites on every match, so
the last matching concept wins. -/

def matchConcept (cs : List Concept) (w : String) : Option String :=
  ((cs.filter fun c => strIn w (lowerStr c.text) || strIn (lowerStr c.text) w).getLast?).map
    (·.text)

/-- One token step of the syntactic phase (extractor.py lines 183 to 213).
When the unordered pair already has an edge, the code increments its
weight and then reads the types attribute, which a co-occurrence edge does
not carry: that read raises KeyError. -/

def syntacticStep (cs : List Concept) (es : List UEdge) (t : Tok) :
    Except PyErr (List UEdge) :=
  if t.dep ∈ ["nsubj", "dobj", "pobj"] then
    let tokenText := lowerStr t.text
    let headText := lowerStr t.headText
    match matchConcept cs tokenText, matchConcept cs headText with
    | some tc, some hc =>
      if tc ≠ hc then
        let relType := if t.dep = "nsubj" then "subject_of" else "object_of"
        if hasEdge es tc hc then
          let es1 := incEdgeWeight es tc hc
          match es1.find? fun e => edgeMatches e tc hc with
          | none => Except.ok es1
          | some e =>
            match e.types with
            | none => Except.error (PyErr.keyError "types")
            | some tys =>
              Except.ok (es1.map fun e2 =>
                if edgeMatches e2 tc hc then
                  { e2 with types := some (if relType ∈ tys then tys else tys ++ [relType]) }
                else e2)
        else Except.ok (es ++ [⟨tc, hc, 1, "syntactic", some [relType]⟩])
      else Except.ok es
    | _, _ => Except.ok es
  else Except.ok es

/-- Syntactic phase of relationship extraction (extractor.py lines 181
to 213). -/

def syntacticPhase (d : Doc) (cs : List Concept) (es : List UEdge) :
    Except PyErr (List UEdge) :=
  d.sents.foldlM (fun es1 s => s.tokens.foldlM (syntacticStep cs) es1) es

/-- Embedding of KnowledgeExtractor._extract_relationships (extractor.py
lines 139 to 228): co-occurrence phase, syntactic phase, then the edge
list converted to relationship records sorted by weight descending. -/

def extract_relationships (d : Doc) (cs : List Concept) : Except PyErr (List Rel) := do
  let es0 := coOccurrencePhase d cs
  let es ← syntacticPhase d cs es0
  let rels := es.map fun e => Rel.mk e.u e.v e.weight e.type (e.types.getD [])
  return List.insertionSort (fun a b : Rel => b.weight ≤ a.weight) rels

/-! ## Hierarchy generation -/

/-- Containment edges of the hierarchy digraph (extractor.py lines 239
to 249): for distinct texts, an edge from the containing text to the
contained one, tested case insensitively in both orders. -/

def containmentEdges (cs : List Concept) : List (String × String) :=
  cs.flatMap fun c1 => cs.flatMap fun c2 =>
    if c1.text ≠ c2.text then
      if strIn (lowerStr c1.text) (lowerStr c2.text) then [(c1.text, c2.text)]
      else if strIn (lowerStr c2.text) (lowerStr c1.text) then [(c2.text, c1.text)]
      else []
    else []

/-- Successor list of a node of the digraph; networkx stores each edge
once, hence the dedup. -/

def successors (edges : List (String × String)) (n : String) : List String :=
  pyDedup ((edges.filter fun e => e.1 = n).map (·.2))

/-- Subtree node of the hierarchy tree: a concept with its child list. -/

inductive SubT where
  | mk (concept : String) (children : List SubT)

/-- Concept field of a subtree node. -/

def SubT.concept : SubT → String
  | .mk c _ => c

/-- Children field of a subtree node. -/

def SubT.children : SubT → List SubT
  | .mk _ cs => cs

/-- Embedding of KnowledgeExtractor._build_subtree (extractor.py lines 270
to 285).  The Python recursion carries no fuel and no path guard; the fuel
argument makes the embedding total, and fuel exhaustion (the none result)
witnesses that the recursion exceeds that depth. -/

def buildSubtree (edges : List (String × String)) : Nat → String → Option (List SubT)
  | 0, _ => none
  | fuel + 1, node =>
    let children := successors edges node
    if children.isEmpty then some []
    else children.mapM fun child =>
      (buildSubtree edges fuel child).map fun sub => SubT.mk child sub

/-- Hierarchy record: root list and tree mapping. -/

structure Hier where
  roots : List String
  tree : List (String × List SubT)

/-- Importance attribute of a hierarchy graph node (extractor.py line 237;
repeated add_node keeps the last value). -/

def importanceAttr (cs : List Concept) (n : String) : ℚ :=
  ((cs.reverse.find? fun c => c.text = n).map (·.importance)).getD 0

/-- Embedding of KnowledgeExtractor._generate_hierarchy (extractor.py
lines 230 to 268): containment digraph, roots with no incoming edge (or
the five most important concepts when none exist), and one subtree per
root.  The none result records that subtree construction exceeded the
fuel. -/

def generateHierarchy (cs : List Concept) (fuel : Nat) : Option Hier :=
  let edges := containmentEdges cs
  let gNodes := pyDedup (cs.map (·.text))
  let rootCandidates0 := gNodes.filter fun n => ¬ edges.any fun e => e.2 = n
  let rootCandidates :=
    if rootCandidates0.isEmpty then
      (List.insertionSort
        (fun a b : String => importanceAttr cs b ≤ importanceAttr cs a) gNodes).take 5
    else rootCandidates0
  let roots := rootCandidates.take 5
  (roots.mapM fun r => (buildSubtree edges fuel r).map fun t => (r, t)).map
    fun pairs => Hier.mk roots pairs

/-! ## Clustering -/

/-- Cluster record produced by the extractor. -/

structure ClusterOut where
  id : Nat
  concepts : List String
  name : String
deriving Repr, DecidableEq

/-- Merge step of the connected component computation: unite the
components of the two endpoints of one edge. -/

def mergeStep (comps : List (List String)) (p : String × String) : List (List String) :=
  let ca := (comps.find? fun comp => p.1 ∈ comp).getD []
  let cb := (comps.find? fun comp => p.2 ∈ comp).getD []
  if ca = cb then comps
  else (comps.filter fun comp => comp ≠ ca ∧ comp ≠ cb) ++ [ca ++ cb]

/-- Model of networkx connected_components on the cluster graph: start
from singleton components and merge along every edge.  The library is an
external collaborator; component member sets agree with it, component
order is immaterial to every statement proved here. -/

def nxComponents (nodes : List String) (edgePairs : List (String × String)) :
    List (List String) :=
  edgePairs.foldl mergeStep (nodes.map fun n => [n])

/-- Python max with a key function returns the first maximal element. -/

def pyMaxConcept (h : Concept) (t : List Concept) : Concept :=
  t.foldl (fun best c => if best.importance < c.importance then c else best) h

/-- Embedding of KnowledgeExtractor._generate_clusters (extractor.py lines
287 to 338).  The community module is optional: the oracle argument is its
best_partition result when importable, none when the import fails and the
code falls back to connected components.  Clusters are sorted by size
descending and named after their most important member. -/

def generateClusters (cs : List Concept) (rels : List Rel)
    (communityOracle : Option (List (String × Nat))) : List ClusterOut :=
  let nodes := pyDedup (cs.map (·.text) ++ rels.flatMap fun r => [r.source, r.target])
  let rawClusters : List (Nat × List String) :=
    match communityOracle with
    | some partition =>
      (pyDedup (partition.map (·.2))).map fun i =>
        (i, (partition.filter fun q => q.2 = i).map (·.1))
    | none =>
      (nxComponents nodes (rels.map fun r => (r.source, r.target))).enum
  let sorted := List.insertionSort
    (fun a b : Nat × List String => b.2.length ≤ a.2.length) rawClusters
  sorted.map fun q =>
    let clusterConcepts := cs.filter fun c => c.text ∈ q.2
    match clusterConcepts with
    | [] => ⟨q.1, q.2, "Cluster " ++ toString q.1⟩
    | h :: t => ⟨q.1, q.2, (pyMaxConcept h t).text⟩

/-! ## Top level extraction -/

/-- Record returned by extract_knowledge.  The hierarchy field is an
Option because the empty input branch returns a bare empty dict with no
roots and no tree key, while the non empty branch returns both keys. -/

structure Extracted where
  concepts : List Concept
  relationships : List Rel
  hierarchy : Option Hier
  clusters : List ClusterOut

/-- Input record handed over by the file processors; the extractor reads
only the content field, absent or empty meaning no text. -/

structure ProcessedContent where
  content : Option String

/-- Embedding of KnowledgeExtractor.extract_knowledge (extractor.py lines
26 to 63).  The nlp collaborator and the community partition are oracles;
the outer none result records fuel exhaustion of the hierarchy recursion,
and the inner Except carries a raised Python exception. -/

def extract_knowledge (pc : ProcessedContent) (nlp : String → Doc)
    (communityOracle : Option (List (String × Nat))) (fuel : Nat) :
    Option (Except PyErr Extracted) :=
  let text := pc.content.getD ""
  if text = "" then some (Except.ok ⟨[], [], none, []⟩)
  else
    let d := nlp text
    let cs := extract_concepts d
    match extract_relationships d cs with
    | Except.error e => some (Except.error e)
    | Except.ok rels =>
      match generateHierarchy cs fuel with
      | none => none
      | some h =>
        some (Except.ok ⟨cs, rels, some h, generateClusters cs rels communityOracle⟩)

/-! ## Knowledge map builder

Embedding of KnowledgeMapper.generate_knowledge_map (mapper.py lines 15
to 163).  Input records use Option fields wherever the Python code reads
them through dict.get with a default.  The spring layout is an oracle that
either yields a position per node or fails; the mapper module imports os,
json, logging, networkx and collections only, so the random fallback in
the except branch resolves the unbound name random and raises NameError. -/

/-- Concept record as consumed by the mapper (optional attribute fields
are read with defaults). -/

structure MConcept where
  text : String
  type : Option String
  importance : Option ℚ
  frequency : Option ℚ
deriving Repr, DecidableEq

/-- Relationship record as consumed by the mapper. -/

structure MRel where
  source : String
  target : String
  weight : Option ℚ
  type : Option String
  subtypes : Option (List String)
deriving Repr, DecidableEq

/-- Cluster record as consumed by the mapper. -/

structure MCluster where
  id : Nat
  name : Option String
  concepts : List String
deriving Repr, DecidableEq

/-- Extracted knowledge record as consumed by the mapper. -/

structure ExtractedInput where
  concepts : List MConcept
  relationships : List MRel
  hierarchy : Option Hier
  clusters : List MCluster

/-- Node of the generated knowledge map. -/

structure MapNode where
  id : String
  label : String
  type : String
  importance : ℚ
  frequency : ℚ
  x : ℚ
  y : ℚ
  size : ℚ
deriving Repr, DecidableEq

/-- Link of the generated knowledge map. -/

structure MapLink where
  source : String
  target : String
  weight : ℚ
  type : String
  subtypes : List String
deriving Repr, DecidableEq

/-- Cluster of the generated knowledge map. -/

structure MapCluster where
  id : Nat
  name : String
  concepts : List String
  center : ℚ × ℚ
  size : Nat
deriving Repr, DecidableEq

/-- Metadata counts of the generated knowledge map. -/

structure MapMeta where
  total_nodes : Nat
  total_links : Nat
  total_clusters : Nat
deriving Repr, DecidableEq

/-- Generated knowledge map. -/

structure KMap where
  nodes : List MapNode
  links : List MapLink
  clusters : List MapCluster
  hierarchy : Option Hier
  metadata : MapMeta

/-- Global names bound at module level in mapper.py (lines 1 to 13): its
imports and the module logger.  The name random is not among them. -/

def mapperGlobalNames : List String :=
  ["os", "json", "logging", "nx", "defaultdict", "logger"]

/-- Node set of the mapper graph: concept texts in order, then endpoints
of relationships that add_edge inserts when missing (mapper.py lines 47
to 63). -/

def mapperNodes (ek : ExtractedInput) : List String :=
  pyDedup (ek.concepts.map (·.text) ++
    ek.relationships.flatMap fun r => [r.source, r.target])

/-- Attribute record of a mapper graph node: the last add_node call wins;
auto inserted endpoint nodes have no attribute record. -/

def nodeAttr (cs : List MConcept) (n : String) : Option MConcept :=
  cs.reverse.find? fun c => c.text = n

/-- Resolved edge of the mapper graph (add_edge stores the attributes of
the last call for an unordered pair). -/

structure MEdge where
  u : String
  v : String
  weight : ℚ
  type : String
  subtypes : List String
deriving Repr, DecidableEq

/-- Unordered endpoint match for a mapper edge. -/

def mEdgeMatches (e : MEdge) (a b : String) : Bool :=
  (e.u = a ∧ e.v = b) ∨ (e.u = b ∧ e.v = a)

/-- Edge list of the mapper graph (mapper.py lines 56 to 63); a repeated
unordered pair keeps its position and takes the attributes of the last
add_edge call. -/

def mapperEdges (rels : List MRel) : List MEdge :=
  rels.foldl (fun es r =>
    let w := r.weight.getD 1
    let ty := r.type.getD "related"
    let st := r.subtypes.getD []
    if es.any fun e => mEdgeMatches e r.source r.target then
      es.map fun e =>
        if mEdgeMatches e r.source r.target then
          { e with weight := w, type := ty, subtypes := st }
        else e
    else es ++ [⟨r.source, r.target, w, ty, st⟩]) []

/-- Python min over a nonempty list of rationals. -/

def listMin : List ℚ → ℚ
  | [] => 0
  | x :: rest => rest.foldl min x

/-- Python max over a nonempty list of rationals. -/

def listMax : List ℚ → ℚ
  | [] => 0
  | x :: rest => rest.foldl max x

/-- Range used for normalization (mapper.py lines 80, 81 and 95): the
observed spread, or one when degenerate. -/

def coordRange (vals : List ℚ) : ℚ :=
  if listMin vals < listMax vals then listMax vals - listMin vals else 1

/-- Arithmetic mean of a list of rationals. -/

def meanQ (l : List ℚ) : ℚ := l.sum / (l.length : ℚ)

/-- Member nodes of a cluster of the map (mapper.py line 132). -/

def mapClusterMembers (nodes : List MapNode) (concepts : List String) : List MapNode :=
  nodes.filter fun n => n.id ∈ concepts

/-- Importance attribute read of one mapper graph node as the node list
comprehension performs it (mapper.py lines 51 and 92), for nodes that
have the attribute. -/

def mapperImpOf (ek : ExtractedInput) (n : String) : ℚ :=
  ((nodeAttr ek.concepts n).map fun c => c.importance.getD (1/2)).getD (1/2)

/-- First coordinates of the raw layout positions, in node order. -/

def mapperXs (ek : ExtractedInput) (pos : String → ℚ × ℚ) : List ℚ :=
  (mapperNodes ek).map fun n => (pos n).1

/-- Second coordinates of the raw layout positions, in node order. -/

def mapperYs (ek : ExtractedInput) (pos : String → ℚ × ℚ) : List ℚ :=
  (mapperNodes ek).map fun n => (pos n).2

/-- Importance values of the graph nodes, in node order (mapper.py
line 92). -/

def mapperImps (ek : ExtractedInput) : List ℚ :=
  (mapperNodes ek).map (mapperImpOf ek)

/-- Visualization record of one node (mapper.py lines 102 to 115 with the
normalization of lines 74 to 100). -/

def mapperNodeRecord (ek : ExtractedInput) (pos : String → ℚ × ℚ) (n : String) :
    MapNode :=
  { id := n
    label := n
    type := ((nodeAttr ek.concepts n).map fun c => c.type.getD "concept").getD "concept"
    importance := mapperImpOf ek n
    frequency := ((nodeAttr ek.concepts n).map fun c => c.frequency.getD 1).getD 1
    x := ((pos n).1 - listMin (mapperXs ek pos)) / coordRange (mapperXs ek pos)
    y := ((pos n).2 - listMin (mapperYs ek pos)) / coordRange (mapperYs ek pos)
    size := 5 + ((mapperImpOf ek n - listMin (mapperImps ek)) /
      coordRange (mapperImps ek)) * 15 }

/-- Node list of the generated map. -/

def mapperNodeList (ek : ExtractedInput) (pos : String → ℚ × ℚ) : List MapNode :=
  (mapperNodes ek).map (mapperNodeRecord ek pos)

/-- Cluster list of the generated map (mapper.py lines 128 to 145):
clusters with no member node are dropped, the center is the mean of the
member positions. -/

def mapperClusterData (ek : ExtractedInput) (pos : String → ℚ × ℚ) :
    List MapCluster :=
  ek.clusters.filterMap fun cl =>
    let members := mapClusterMembers (mapperNodeList ek pos) cl.concepts
    if members.isEmpty then none
    else some
      { id := cl.id
        name := cl.name.getD ("Cluster " ++ toString cl.id)
        concepts := cl.concepts
        center := (meanQ (members.map (·.x)), meanQ (members.map (·.y)))
        size := cl.concepts.length }

/-- Embedding of KnowledgeMapper.generate_knowledge_map (mapper.py lines
15 to 163).  The layout argument is the outcome of nx.spring_layout; on
layout failure the except branch evaluates random.random() with random
unbound in the module, so it raises NameError instead of falling back.
Reading the importance attribute of a node that no concept declared
raises KeyError (mapper.py line 92). -/

def generate_knowledge_map (ek : ExtractedInput)
    (layout : Except String (String → ℚ × ℚ)) (rng : String → ℚ × ℚ) :
    Except PyErr KMap :=
  if ek.concepts.isEmpty then
    Except.ok ⟨[], [], [], none, ⟨0, 0, 0⟩⟩
  else
    match (match layout with
           | Except.ok pos => Except.ok pos
           | Except.error _ =>
             if "random" ∈ mapperGlobalNames then Except.ok rng
             else Except.error (PyErr.nameError "random")) with
    | Except.error e => Except.error e
    | Except.ok pos =>
      if (mapperNodes ek).all fun n => (nodeAttr ek.concepts n).isSome then
        let nodes := mapperNodeList ek pos
        let links : List MapLink := (mapperEdges ek.relationships).map fun e =>
          ⟨e.u, e.v, e.weight, e.type, e.subtypes⟩
        let clusterData := mapperClusterData ek pos
        Except.ok ⟨nodes, links, clusterData, ek.hierarchy,
          ⟨nodes.length, links.length, clusterData.length⟩⟩
      else Except.error (PyErr.keyError "importance")

/-! ## Journey generator

Embedding of LearningJourneyGenerator (journey.py).  The nodes dict keyed
by id keeps first key positions and last values; the adjacency dict is
built from the links with bidirectional entries; random.sample and
random.choice are the two oracle functions of the random collaborator. -/

/-- User preference record; each field models one dict.get lookup. -/

structure Prefs where
  preferred_journey_type : Option String
  pattern_seeking_level : Option String
  hierarchical_preference : Option String
  associative_preference : Option String
deriving Repr, DecidableEq

/-- Random collaborator: sample draws distinct positions without
replacement, choice picks one element of a nonempty list. -/

structure RandO where
  sample : List String → Nat → List String
  choice : List String → String

/-- Strategy names known to the generator (journey.py line 103). -/

def journeyTypes : List String := ["pattern_based", "hierarchical", "associative"]

/-- Dict lookup in the nodes mapping: the last node with the key wins. -/

def nodeLookup (nodes : List MapNode) (k : String) : Option MapNode :=
  nodes.reverse.find? fun n => n.id = k

/-- Key list of the nodes dict, first occurrences in order. -/

def nodeIds (nodes : List MapNode) : List String := pyDedup (nodes.map (·.id))

/-- Type of the start concept as read by the heuristic (journey.py lines
119 and 120). -/

def startConceptType (nodes : List MapNode) (start : String) : String :=
  ((nodeLookup nodes start).map (·.type)).getD ""

/-- Explicit preferred journey type when it names a known strategy
(journey.py line 107); a Python membership test of None is false. -/

def preferredType (p : Prefs) : Option String :=
  match p.preferred_journey_type with
  | some t => if t ∈ journeyTypes then some t else none
  | none => none

/-- Embedding of LearningJourneyGenerator._determine_journey_type
(journey.py lines 100 to 127). -/

def determine_journey_type (start : String) (nodes : List MapNode)
    (prefs : Option Prefs) : String :=
  let heuristic :=
    let conceptType := startConceptType nodes start
    if conceptType ∈ ["noun_phrase", "key_term"] then "pattern_based"
    else if conceptType ∈ ["ORG", "PERSON", "GPE"] then "hierarchical"
    else "associative"
  match prefs with
  | none => heuristic
  | some p =>
    match preferredType p with
    | some t => t
    | none =>
      if p.pattern_seeking_level = some "high" then "pattern_based"
      else if p.hierarchical_preference = some "high" then "hierarchical"
      else if p.associative_preference = some "high" then "associative"
      else heuristic

/-- Adjacency list of one node, built from the links in order with
bidirectional entries (journey.py lines 43 to 51). -/

def graphAdj (links : List MapLink) (n : String) : List (String × ℚ) :=
  links.foldl (fun acc l =>
    let acc1 := if l.source = n then acc ++ [(l.target, l.weight)] else acc
    if l.target = n then acc1 ++ [(l.source, l.weight)] else acc1) []

/-- Path building state: the path so far and the visited set. -/

structure PathSt where
  path : List String
  visited : List String

/-- Append a concept and mark it visited. -/

def pushConcept (st : PathSt) (c : String) : PathSt :=
  ⟨st.path ++ [c], c :: st.visited⟩

/-- Guarded append used by every loop of the strategy functions: append
only when unvisited and the extra loop condition holds. -/

def guardedPush (st : PathSt) (c : String) (extra : Bool) : PathSt :=
  if c ∉ st.visited ∧ extra then pushConcept st c else st

/-- Concepts of similar importance that are still unvisited (journey.py
lines 257 to 263 and 331 to 337; the lookup default inside the loop is
zero). -/

def similarConcepts (nodes : List MapNode) (visited : List String)
    (startImportance : ℚ) : List String :=
  (nodeIds nodes).filterMap fun nid =>
    if nid ∉ visited ∧
        |(((nodeLookup nodes nid).map (·.importance)).getD 0) - startImportance| < 1/5
    then some nid else none

/-- Shared tail of the hierarchical and default strategies (journey.py
lines 253 to 269 and 328 to 343): when the path is still short, sample up
to three importance similar concepts and append while under five. -/

def padWithSimilar (nodes : List MapNode) (rnd : RandO) (start : String)
    (st : PathSt) : List String :=
  if st.path.length < 5 then
    let startImportance := ((nodeLookup nodes start).map (·.importance)).getD (1/2)
    let similar := similarConcepts nodes st.visited startImportance
    let chosen := rnd.sample similar (min 3 similar.length)
    (chosen.foldl (fun st2 c =>
      if st2.path.length < 5 then pushConcept st2 c else st2) st).path
  else st.path

/-- Embedding of LearningJourneyGenerator._generate_default_path
(journey.py lines 314 to 345). -/

def generate_default_path (start : String) (nodes : List MapNode)
    (links : List MapLink) (rnd : RandO) : List String :=
  let st0 : PathSt := ⟨[start], [start]⟩
  let neighbors := List.insertionSort
    (fun a b : String × ℚ => b.2 ≤ a.2) (graphAdj links start)
  let st1 := (neighbors.take 3).foldl (fun st p => guardedPush st p.1 true) st0
  padWithSimilar nodes rnd start st1

/-- Primary cluster selection (journey.py line 145): Python max with a
key returns the first cluster of greatest size. -/

def primaryCluster (h : MapCluster) (t : List MapCluster) : MapCluster :=
  t.foldl (fun best c => if best.size < c.size then c else best) h

/-- Same cluster concepts ranked by direct connection strength to the
start (journey.py lines 150 to 161). -/

def patternConnected (start : String) (nodes : List MapNode) (links : List MapLink)
    (clusterConcepts : List String) : List (String × ℚ) :=
  clusterConcepts.filterMap fun c =>
    if c ≠ start ∧ nodes.any fun n => n.id = c then
      some (c, (((graphAdj links start).find? fun p => p.1 = c).map (·.2)).getD 0)
    else none

/-- State after appending the top three connected cluster concepts
(journey.py lines 163 to 170). -/

def patternSt1 (start : String) (nodes : List MapNode) (links : List MapLink)
    (primary : MapCluster) : PathSt :=
  ((List.insertionSort (fun a b : String × ℚ => b.2 ≤ a.2)
      (patternConnected start nodes links primary.concepts)).take 3).foldl
    (fun st p => guardedPush st p.1 true) ⟨[start], [start]⟩

/-- Unvisited concepts connected to at least two path members, with their
connection counts (journey.py lines 172 to 185). -/

def patternCandidates (nodes : List MapNode) (links : List MapLink) (st : PathSt) :
    List (String × Nat) :=
  (nodeIds nodes).filterMap fun nid =>
    if nid ∉ st.visited then
      if (st.path.filter fun pc =>
          (graphAdj links pc).any fun p => p.1 = nid).length ≥ 2 then
        some (nid, (st.path.filter fun pc =>
          (graphAdj links pc).any fun p => p.1 = nid).length)
      else none
    else none

/-- State after appending the top two pattern forming concepts
(journey.py lines 187 to 194). -/

def patternSt2 (start : String) (nodes : List MapNode) (links : List MapLink)
    (primary : MapCluster) : PathSt :=
  ((List.insertionSort (fun a b : String × Nat => b.2 ≤ a.2)
      (patternCandidates nodes links (patternSt1 start nodes links primary))).take 2).foldl
    (fun st p => guardedPush st p.1 true) (patternSt1 start nodes links primary)

/-- Final padding of the pattern path from the primary cluster
(journey.py lines 196 to 204). -/

def patternTail (start : String) (nodes : List MapNode) (links : List MapLink)
    (primary : MapCluster) : List String :=
  if (patternSt2 start nodes links primary).path.length < 5 then
    (primary.concepts.foldl (fun st c =>
      guardedPush st c (decide (st.path.length < 5)))
      (patternSt2 start nodes links primary)).path
  else (patternSt2 start nodes links primary).path

/-- Embedding of LearningJourneyGenerator._generate_pattern_based_path
(journey.py lines 129 to 204). -/

def generate_pattern_based_path (start : String) (nodes : List MapNode)
    (links : List MapLink) (clusters : List MapCluster) (rnd : RandO) : List String :=
  match clusters.filter fun c => start ∈ c.concepts with
  | [] => generate_default_path start nodes links rnd
  | h :: t => patternTail start nodes links (primaryCluster h t)

/-- Embedding of LearningJourneyGenerator._get_children_from_tree
(journey.py lines 461 to 466). -/

def get_children_from_tree (concept : String) (tree : List (String × List SubT)) :
    List String :=
  (((tree.reverse.find? fun e => e.1 = concept).map (·.2)).getD []).map (·.concept)

/-- Embedding of LearningJourneyGenerator._is_descendant (journey.py lines
468 to 478), with fuel making the recursion total; the tree maps only
roots to child lists, so the source recursion bottoms out immediately on
non key children. -/

def is_descendant (tree : List (String × List SubT)) :
    Nat → String → String → Bool
  | 0, _, _ => false
  | fuel + 1, concept, root =>
    if concept = root then true
    else (((tree.reverse.find? fun e => e.1 = root).map (·.2)).getD []).any
      fun cd => concept = cd.concept || is_descendant tree fuel concept cd.concept

/-- Tree mapping of the knowledge map hierarchy (journey.py lines 212
and 213); an empty hierarchy dict has neither key. -/

def hierTree (hierarchy : Option Hier) : List (String × List SubT) :=
  (hierarchy.map (·.tree)).getD []

/-- Root list of the knowledge map hierarchy (journey.py line 216). -/

def hierRoots (hierarchy : Option Hier) : List String :=
  (hierarchy.map (·.roots)).getD []

/-- Parent insertion at the front of the path (journey.py lines 231
to 234); an empty string parent is falsy and skipped. -/

def hierParentStep (parent : Option String) (st : PathSt) : PathSt :=
  match parent with
  | some p =>
    if p ≠ "" ∧ p ∉ st.visited then PathSt.mk (p :: st.path) (p :: st.visited) else st
  | none => st

/-- Sibling list: children of the found parent (journey.py lines 236
to 239). -/

def hierSiblings (hierarchy : Option Hier) (parent : Option String) : List String :=
  match parent with
  | some p => if p ≠ "" then get_children_from_tree p (hierTree hierarchy) else []
  | none => []

/-- Path state of the hierarchical strategy before the similarity padding
(journey.py lines 208 to 251). -/

def hierCore (start : String) (hierarchy : Option Hier) (fuel : Nat) : PathSt :=
  if start ∈ hierRoots hierarchy then
    ((get_children_from_tree start (hierTree hierarchy)).take 4).foldl
      (fun st c => guardedPush st c true) ⟨[start], [start]⟩
  else
    ((get_children_from_tree start (hierTree hierarchy)).foldl
      (fun st c => guardedPush st c (decide (st.path.length < 6)))
      ((hierSiblings hierarchy ((hierRoots hierarchy).find? fun r =>
          is_descendant (hierTree hierarchy) fuel start r)).foldl
        (fun st s => guardedPush st s (decide (s ≠ start ∧ st.path.length < 4)))
        (hierParentStep ((hierRoots hierarchy).find? fun r =>
          is_descendant (hierTree hierarchy) fuel start r) ⟨[start], [start]⟩)))

/-- Embedding of LearningJourneyGenerator._generate_hierarchical_path
(journey.py lines 206 to 271). -/

def generate_hierarchical_path (start : String) (nodes : List MapNode)
    (hierarchy : Option Hier) (rnd : RandO) (fuel : Nat) : List String :=
  padWithSimilar nodes rnd start (hierCore start hierarchy fuel)

/-- Highest weight unvisited neighbor of the current node (journey.py
lines 289 to 297). -/

def assocFirstUnvisited (links : List MapLink) (st : PathSt) (current : String) :
    Option String :=
  ((List.insertionSort (fun a b : String × ℚ => b.2 ≤ a.2)
      (graphAdj links current)).find? fun p => p.1 ∉ st.visited).map (·.1)

/-- Next concept of the associative walk (journey.py lines 292 to 303): a
falsy (absent or empty) first choice triggers the random jump to some
unvisited concept when one exists. -/

def assocNext (nodes : List MapNode) (links : List MapLink) (rnd : RandO)
    (st : PathSt) (current : String) : Option String :=
  if (assocFirstUnvisited links st current).getD "" = "" then
    if ((nodeIds nodes).filter fun n => n ∉ st.visited).isEmpty then
      assocFirstUnvisited links st current
    else some (rnd.choice ((nodeIds nodes).filter fun n => n ∉ st.visited))
  else assocFirstUnvisited links st current

/-- Loop of the associative walk (journey.py lines 282 to 310), iterated
five times; the walk stops when the current node has no neighbors or when
the chosen next concept is falsy (absent or the empty string). -/

def associativeWalk (nodes : List MapNode) (links : List MapLink) (rnd : RandO) :
    Nat → PathSt → String → List String
  | 0, st, _ => st.path
  | k + 1, st, current =>
    if (graphAdj links current).isEmpty then st.path
    else
      match assocNext nodes links rnd st current with
      | some nc =>
        if nc ≠ "" then associativeWalk nodes links rnd k (pushConcept st nc) nc
        else st.path
      | none => st.path

/-- Embedding of LearningJourneyGenerator._generate_associative_path
(journey.py lines 273 to 312). -/

def generate_associative_path (start : String) (nodes : List MapNode)
    (links : List MapLink) (rnd : RandO) : List String :=
  associativeWalk nodes links rnd 5 ⟨[start], [start]⟩ start

/-- Related concept entry of the synthesized content. -/

structure RelatedConcept where
  id : String
  relationship_type : String
  strength : ℚ
deriving Repr, DecidableEq

/-- Visual element entry of the synthesized content. -/

structure VisualElement where
  type : String
  description : String
deriving Repr, DecidableEq

/-- Learning activity entry of the synthesized content. -/

structure LearningActivity where
  type : String
  description : String
deriving Repr, DecidableEq

/-- Synthesized content record of one path concept. -/

structure Content where
  title : String
  type : String
  importance : ℚ
  description : String
  pattern_insights : List String
  examples : List String
  related_concepts : List RelatedConcept
  visual_elements : List VisualElement
  learning_activities : List LearningActivity
deriving Repr, DecidableEq

/-- Embedding of LearningJourneyGenerator._generate_concept_content
(journey.py lines 347 to 423); a missing cluster renders as the string
None inside the formatted insight, as the Python f-string does. -/

def generate_concept_content (conceptId : String) (nodes : List MapNode)
    (m : KMap) : Content :=
  let node := nodeLookup nodes conceptId
  let related := m.links.filterMap fun l =>
    if l.source = conceptId ∧ l.target ≠ conceptId then
      some (RelatedConcept.mk l.target l.type l.weight)
    else if l.target = conceptId ∧ l.source ≠ conceptId then
      some (RelatedConcept.mk l.source l.type l.weight)
    else none
  let relatedSorted := List.insertionSort
    (fun a b : RelatedConcept => b.strength ≤ a.strength) related
  let clusterName :=
    match m.clusters.find? fun cl => conceptId ∈ cl.concepts with
    | some cl => cl.name
    | none => "None"
  let label := ((node.map (·.label)).getD conceptId)
  { title := label
    type := (node.map (·.type)).getD "concept"
    importance := (node.map (·.importance)).getD (1/2)
    description := "This is a detailed explanation of the concept \u0027" ++ label ++
      "\u0027. In a full implementation, this would contain comprehensive information about the concept."
    pattern_insights :=
      ["This concept forms part of a larger pattern in the knowledge domain.",
       "It belongs to the cluster \u0027" ++ clusterName ++
         "\u0027 which represents a key area of knowledge.",
       "Understanding this concept helps reveal connections between seemingly disparate ideas."]
    examples :=
      ["Example 1: Application in a real-world context",
       "Example 2: Illustration of the concept in practice",
       "Example 3: Case study demonstrating the concept\u0027s importance"]
    related_concepts := relatedSorted.take 5
    visual_elements :=
      [⟨"diagram", "Conceptual diagram showing relationships to other concepts"⟩,
       ⟨"image", "Visual representation of the concept"⟩]
    learning_activities :=
      [⟨"pattern_recognition",
        "Identify patterns related to this concept in different contexts"⟩,
       ⟨"connection_mapping",
        "Map connections between this concept and previously learned concepts"⟩,
       ⟨"application", "Apply this concept to solve a novel problem"⟩] }

/-- Embedding of LearningJourneyGenerator._determine_pattern_focus
(journey.py lines 425 to 446); the counts dict maps cluster id to the
number of path concepts it contains, with keys created on first
increment. -/

def determine_pattern_focus (path : List String) (m : KMap) : String :=
  let clusterCounts : List (Nat × Nat) := m.clusters.foldl (fun acc cl =>
    path.foldl (fun acc2 concept =>
      if concept ∈ cl.concepts then
        if acc2.any fun q => q.1 = cl.id then
          acc2.map fun q => if q.1 = cl.id then (q.1, q.2 + 1) else q
        else acc2 ++ [(cl.id, 1)]
      else acc2) acc) []
  let maxCount := (clusterCounts.map (·.2)).foldl max 0
  if clusterCounts ≠ [] ∧ (maxCount : ℚ) ≥ (path.length : ℚ) * (7/10) then "high"
  else if clusterCounts.length ≤ 3 ∧ clusterCounts.length > 0 then "medium"
  else "low"

/-- Embedding of LearningJourneyGenerator._determine_complexity
(journey.py lines 448 to 459). -/

def determine_complexity (path : List String) (nodes : List MapNode) : String :=
  let importances := path.map fun c =>
    ((nodeLookup nodes c).map (·.importance)).getD (1/2)
  let avg := if importances.isEmpty then (1/2 : ℚ)
    else importances.sum / (importances.length : ℚ)
  if avg > 7/10 then "high"
  else if avg > 2/5 then "medium"
  else "low"

/-- Journey metadata record. -/

structure JMeta where
  pattern_focus : String
  complexity : String
  journey_type : String
deriving Repr, DecidableEq

/-- Journey record returned by generate_journey; content is the dict from
path concept id to synthesized content in path order. -/

structure Journey where
  start_concept : String
  path : List String
  content : List (String × Content)
  metadata : JMeta

/-- Journey returned on every degenerate input (journey.py lines 27 to 37
and 54 to 65). -/

def defaultJourney (start : String) : Journey :=
  ⟨start, [], [], ⟨"medium", "medium", "default"⟩⟩

/-- Embedding of LearningJourneyGenerator.generate_journey (journey.py
lines 15 to 98).  The fuel argument bounds the descendant test recursion
of the hierarchical strategy. -/

def generate_journey (km : Option KMap) (start : String) (prefs : Option Prefs)
    (rnd : RandO) (fuel : Nat) : Journey :=
  match km with
  | none => defaultJourney start
  | some m =>
    if start = "" then defaultJourney start
    else if ¬ m.nodes.any fun n => n.id = start then defaultJourney start
    else
      let jt := determine_journey_type start m.nodes prefs
      let path :=
        if jt = "pattern_based" then
          generate_pattern_based_path start m.nodes m.links m.clusters rnd
        else if jt = "hierarchical" then
          generate_hierarchical_path start m.nodes m.hierarchy rnd fuel
        else if jt = "associative" then
          generate_associative_path start m.nodes m.links rnd
        else generate_default_path start m.nodes m.links rnd
      let content := path.map fun cid => (cid, generate_concept_content cid m.nodes m)
      ⟨start, path, content,
        ⟨determine_pattern_focus path m, determine_complexity path m.nodes, jt⟩⟩

/-! ## Concrete inputs used by counterexamples and witnesses -/

/-- Document with one sentence in which both concepts occur and whose only
token is a subject dependency between them. -/

def c1Doc : Doc :=
  ⟨[⟨"dog bone", [⟨"dog", "NOUN", "nsubj", "bone", false⟩]⟩], [], []⟩

/-- Two concepts that co-occur in the sentence of c1Doc and are also
matched by its dependency edge. -/

def c1Concepts : List Concept :=
  [⟨"dog", "noun_phrase", 2, 1⟩, ⟨"bone", "noun_phrase", 2, 1⟩]

/-- Extracted knowledge with one concept, on which a layout failure would
have to take the random fallback. -/

def c2Input : ExtractedInput :=
  ⟨[⟨"alpha", some "noun_phrase", some 1, some 1⟩], [], none, []⟩

/-- Node whose type LAW is in the extraction allow list. -/

def c4Nodes : List MapNode :=
  [⟨"Freedom Act", "Freedom Act", "LAW", 1, 1, 0, 0, 5⟩]

/-- Node whose type ORG is one of the three types the heuristic actually
maps to the hierarchical strategy. -/

def c4wNodes : List MapNode :=
  [⟨"Acme", "Acme", "ORG", 1, 1, 0, 0, 5⟩]

/-- Node of type noun_phrase used to show that an explicit preference
overrides the type heuristic. -/

def c5wNodes : List MapNode :=
  [⟨"X", "X", "noun_phrase", 1, 1, 0, 0, 5⟩]

/-- Preferences naming the hierarchical strategy explicitly. -/

def c5Prefs : Prefs := ⟨some "hierarchical", none, none, none⟩

/-- Map with a single node named a, used to exercise the missing start
concept branch. -/

def c8Map : KMap :=
  ⟨[⟨"a", "a", "noun_phrase", 1, 1, 0, 0, 5⟩], [], [], none, ⟨1, 0, 0⟩⟩

/-- Two concepts with distinct texts that are equal case insensitively:
the containment test holds in both directions, so the hierarchy digraph
has a two cycle. -/

def c3Concepts : List Concept :=
  [⟨"Paris", "PERSON", 1, 1⟩, ⟨"paris", "noun_phrase", 2, 1⟩]

/-- Concepts with pairwise case insensitively distinct texts, the shape
_extract_concepts always produces. -/

def c3wConcepts : List Concept :=
  [⟨"dog", "key_term", 3, 1⟩, ⟨"dog food", "noun_phrase", 2, 1⟩]

/-- Termination predicate for the embedded subtree recursion: some fuel
suffices, which holds exactly when the source recursion returns. -/

def subtreeTerminates (edges : List (String × String)) (node : String) : Prop :=
  ∃ fuel, (buildSubtree edges fuel node).isSome

/-- Largest length of a lowercased concept text; depth bound of the
containment digraph when texts are case insensitively distinct. -/

def maxLowerLen (cs : List Concept) : Nat :=
  (cs.map fun c => (lowerStr c.text).data.length).foldl max 0

/-! ### Support lemmas for C6 -/

/-- Case insensitive distinctness of the concept texts of a list. -/

def LowNodup (cs : List Concept) : Prop :=
  (cs.map fun c => lowerStr c.text).Nodup

/-- Properties of a key of the key term counter: lowercase fixed point,
nonempty, whitespace free. -/

def GoodTerm (w : String) : Prop :=
  lowerStr w = w ∧ w.data ≠ [] ∧ ∀ c ∈ w.data, isWs c = false

/-- Document used as C6 witness: two noun chunk occurrences, one entity
and repeated key term tokens. -/

def c6Doc : Doc :=
  ⟨[⟨"Dogs love dogs.",
     [⟨"Dogs", "NOUN", "nsubj", "love", false⟩,
      ⟨"love", "VERB", "ROOT", "love", false⟩,
      ⟨"dogs", "NOUN", "dobj", "love", false⟩]⟩],
   ["Dogs", "dogs"],
   [⟨"Acme", "ORG"⟩]⟩

/-! ### C7 theorem -/

/-- Extracted knowledge used as C7 witness. -/

def c7Input : ExtractedInput :=
  ⟨[⟨"a", some "noun_phrase", some 1, some 1⟩,
    ⟨"b", some "key_term", some 2, some 1⟩],
   [], none, [⟨0, some "c0", ["a", "b"]⟩]⟩

/-! ### Support lemmas for C9 -/

/-- Invariant of path construction: the path has no duplicates, stays in
the node id set, and is covered by the visited set. -/

def GoodState (ids : List String) (st : PathSt) : Prop :=
  st.path.Nodup ∧ (∀ c ∈ st.path, c ∈ ids) ∧ ∀ c ∈ st.path, c ∈ st.visited

/-- Map used as C9 witness. -/

def c9Map : KMap :=
  ⟨[⟨"a", "a", "noun_phrase", 1, 1, 0, 0, 5⟩, ⟨"b", "b", "key_term", 1, 1, 0, 0, 5⟩],
   [⟨"a", "b", 2, "co-occurrence", []⟩],
   [⟨0, "c0", ["a", "b"], (0, 0), 2⟩], none, ⟨2, 1, 1⟩⟩

/-- Deterministic random collaborator used as C9 witness: sample takes a
prefix, choice takes the head. -/

def c9Rnd : RandO := ⟨fun xs k => xs.take k, fun xs => xs.headD ""⟩

/-! ## Theorems and supporting lemmas -/

/-! ### Lemmas about the string primitives -/

theorem lowerChar_toNat_of_upper (c : Char) (h1 : 65 ≤ c.toNat) (h2 : c.toNat ≤ 90) :
    (lowerChar c).toNat = c.toNat + 32 := by
  unfold lowerChar Char.toLower
  have hc : 65 ≤ c.toNat ∧ c.toNat ≤ 90 := ⟨h1, h2⟩
  simp only [ge_iff_le, hc, and_self, if_true]
  have hv : (c.toNat + 32).isValidChar := by
    constructor
    omega
  rw [Char.ofNat]
  simp only [hv, dite_true]
  rfl

theorem lowerChar_eq_self (c : Char) (h : ¬ (65 ≤ c.toNat ∧ c.toNat ≤ 90)) :
    lowerChar c = c := by
  unfold lowerChar Char.toLower
  simp only [ge_iff_le, h, if_false]

theorem lowerChar_toNat_not_upper (c : Char) :
    ¬ (65 ≤ (lowerChar c).toNat ∧ (lowerChar c).toNat ≤ 90) := by
  by_cases h : 65 ≤ c.toNat ∧ c.toNat ≤ 90
  · rw [lowerChar_toNat_of_upper c h.1 h.2]
    omega
  · rw [lowerChar_eq_self c h]
    exact h

theorem lowerChar_idem (c : Char) : lowerChar (lowerChar c) = lowerChar c :=
  lowerChar_eq_self _ (lowerChar_toNat_not_upper c)

theorem isWs_lowerChar (c : Char) : isWs (lowerChar c) = isWs c := by
  by_cases h : 65 ≤ c.toNat ∧ c.toNat ≤ 90
  · have h1 := lowerChar_toNat_of_upper c h.1 h.2
    unfold isWs
    rw [h1]
    have : ¬ (c.toNat + 32 = 32 ∨ c.toNat + 32 = 9 ∨ c.toNat + 32 = 10 ∨
        c.toNat + 32 = 13 ∨ c.toNat + 32 = 11 ∨ c.toNat + 32 = 12) := by omega
    have : (decide (c.toNat + 32 = 32) || decide (c.toNat + 32 = 9) ||
        decide (c.toNat + 32 = 10) || decide (c.toNat + 32 = 13) ||
        decide (c.toNat + 32 = 11) || decide (c.toNat + 32 = 12)) = false := by
      simp only [Bool.or_eq_false_iff, decide_eq_false_iff_not]
      omega
    rw [this]
    have hfalse : (decide (c.toNat = 32) || decide (c.toNat = 9) ||
        decide (c.toNat = 10) || decide (c.toNat = 13) ||
        decide (c.toNat = 11) || decide (c.toNat = 12)) = false := by
      simp only [Bool.or_eq_false_iff, decide_eq_false_iff_not]
      omega
    rw [hfalse]
  · rw [lowerChar_eq_self c h]

theorem lowerStr_idem (s : String) : lowerStr (lowerStr s) = lowerStr s := by
  unfold lowerStr
  simp only [List.map_map]
  congr 1
  apply List.map_congr_left
  intro c _
  exact lowerChar_idem c

theorem lowerStr_data (s : String) : (lowerStr s).data = s.data.map lowerChar := rfl

theorem lowerStr_length (s : String) : (lowerStr s).data.length = s.data.length := by
  rw [lowerStr_data, List.length_map]

theorem mem_pyDedupAux {α : Type} [DecidableEq α] (seen : List α) (l : List α) (a : α) :
    a ∈ pyDedupAux seen l ↔ a ∈ l ∧ a ∉ seen := by
  induction l generalizing seen with
  | nil => simp [pyDedupAux]
  | cons x rest ih =>
    by_cases hx : x ∈ seen
    · simp only [pyDedupAux, hx, if_true, ih, List.mem_cons]
      constructor
      · rintro ⟨h1, h2⟩
        exact ⟨Or.inr h1, h2⟩
      · rintro ⟨h1 | h1, h2⟩
        · exact absurd hx (h1 ▸ h2)
        · exact ⟨h1, h2⟩
    · simp only [pyDedupAux, hx, if_false, List.mem_cons, ih]
      constructor
      · rintro (rfl | ⟨h1, h2⟩)
        · exact ⟨Or.inl rfl, hx⟩
        · exact ⟨Or.inr h1, fun hb => h2 (Or.inr hb)⟩
      · rintro ⟨rfl | h1, h2⟩
        · exact Or.inl rfl
        · by_cases hax : a = x
          · exact Or.inl hax
          · exact Or.inr ⟨h1, by simp [hax, h2]⟩

theorem mem_pyDedup {α : Type} [DecidableEq α] (l : List α) (a : α) :
    a ∈ pyDedup l ↔ a ∈ l := by
  unfold pyDedup
  rw [mem_pyDedupAux]
  simp

theorem nodup_pyDedupAux {α : Type} [DecidableEq α] (seen : List α) (l : List α) :
    (pyDedupAux seen l).Nodup := by
  induction l generalizing seen with
  | nil => simp [pyDedupAux]
  | cons x rest ih =>
    by_cases hx : x ∈ seen
    · simpa [pyDedupAux, hx] using ih seen
    · simp only [pyDedupAux, hx, if_false, List.nodup_cons]
      refine ⟨fun hmem => ?_, ih (x :: seen)⟩
      rw [mem_pyDedupAux] at hmem
      exact hmem.2 (List.mem_cons_self _ _)

theorem nodup_pyDedup {α : Type} [DecidableEq α] (l : List α) :
    (pyDedup l).Nodup := nodup_pyDedupAux [] l

theorem mostCommon_keys_nodup (l : List String) (n : Nat) :
    ((mostCommon l n).map Prod.fst).Nodup := by
  have hperm : (List.insertionSort (fun a b : String × Nat => b.2 ≤ a.2)
      (counterPairs l)).Perm (counterPairs l) :=
    List.perm_insertionSort _ _
  have hnodup : ((counterPairs l).map Prod.fst).Nodup := by
    unfold counterPairs
    rw [List.map_map]
    have : (Prod.fst ∘ fun k => (k, l.count k)) = id := by
      funext k
      rfl
    rw [this, List.map_id]
    exact nodup_pyDedup l
  have hperm2 := hperm.map Prod.fst
  have hsortnodup : ((List.insertionSort (fun a b : String × Nat => b.2 ≤ a.2)
      (counterPairs l)).map Prod.fst).Nodup := hperm2.nodup_iff.mpr hnodup
  have hsub : ((mostCommon l n).map Prod.fst).Sublist
      ((List.insertionSort (fun a b : String × Nat => b.2 ≤ a.2)
        (counterPairs l)).map Prod.fst) := by
    unfold mostCommon
    exact (List.take_sublist _ _).map Prod.fst
  exact hsub.nodup hsortnodup

theorem mostCommon_keys_mem (l : List String) (n : Nat) (p : String × Nat)
    (hp : p ∈ mostCommon l n) : p.1 ∈ l := by
  unfold mostCommon at hp
  have h1 := List.mem_of_mem_take hp
  have h2 := (List.perm_insertionSort (fun a b : String × Nat => b.2 ≤ a.2)
      (counterPairs l)).mem_iff.mp h1
  unfold counterPairs at h2
  obtain ⟨k, hk, rfl⟩ := List.mem_map.mp h2
  exact (mem_pyDedup l k).mp hk

/-! ### Support lemmas for C3 -/

theorem startsWithList_length {sub hay : List Char}
    (h : startsWithList sub hay = true) : sub.length ≤ hay.length := by
  induction sub generalizing hay with
  | nil => simp
  | cons a as ih =>
    cases hay with
    | nil => simp [startsWithList] at h
    | cons b bs =>
      simp only [startsWithList, Bool.and_eq_true, decide_eq_true_eq] at h
      simpa using Nat.succ_le_succ (ih h.2)

theorem startsWithList_of_length_eq {sub hay : List Char}
    (h : startsWithList sub hay = true) (hlen : sub.length = hay.length) :
    sub = hay := by
  induction sub generalizing hay with
  | nil =>
    cases hay with
    | nil => rfl
    | cons b bs => simp at hlen
  | cons a as ih =>
    cases hay with
    | nil => simp [startsWithList] at h
    | cons b bs =>
      simp only [startsWithList, Bool.and_eq_true, decide_eq_true_eq] at h
      simp only [List.length_cons, Nat.succ.injEq] at hlen
      rw [h.1, ih h.2 hlen]

theorem containsList_length {sub hay : List Char}
    (h : containsList sub hay = true) : sub.length ≤ hay.length := by
  induction hay with
  | nil => exact startsWithList_length (by simpa [containsList] using h)
  | cons c rest ih =>
    simp only [containsList, Bool.or_eq_true] at h
    rcases h with h | h
    · exact startsWithList_length h
    · exact le_trans (ih h) (by simp)

theorem containsList_of_length_eq {sub hay : List Char}
    (h : containsList sub hay = true) (hlen : sub.length = hay.length) :
    sub = hay := by
  induction hay with
  | nil =>
    cases sub with
    | nil => rfl
    | cons a as => simp at hlen
  | cons c rest ih =>
    simp only [containsList, Bool.or_eq_true] at h
    rcases h with h | h
    · exact startsWithList_of_length_eq h hlen
    · have := containsList_length h
      simp only [List.length_cons] at hlen
      omega

theorem string_data_eq {s t : String} (h : s.data = t.data) : s = t :=
  congrArg String.mk h

theorem option_isSome_map {α β : Type} (f : α → β) (o : Option α) :
    (o.map f).isSome = o.isSome := by
  cases o <;> rfl

theorem containment_edge_lt (cs : List Concept)
    (hdist : ∀ c1 ∈ cs, ∀ c2 ∈ cs, c1.text ≠ c2.text →
      lowerStr c1.text ≠ lowerStr c2.text)
    {a b : String} (hmem : (a, b) ∈ containmentEdges cs) :
    (lowerStr a).data.length < (lowerStr b).data.length := by
  unfold containmentEdges at hmem
  rw [List.mem_flatMap] at hmem
  obtain ⟨c1, hc1, hmem⟩ := hmem
  rw [List.mem_flatMap] at hmem
  obtain ⟨c2, hc2, hmem⟩ := hmem
  split_ifs at hmem with hne h1 h2
  · simp only [List.mem_singleton, Prod.mk.injEq] at hmem
    obtain ⟨rfl, rfl⟩ := hmem
    have hle := containsList_length h1
    rcases Nat.lt_or_ge (lowerStr c1.text).data.length (lowerStr c2.text).data.length
        with hlt | hge
    · exact hlt
    · exfalso
      have heq := containsList_of_length_eq h1 (le_antisymm hle hge)
      exact hdist c1 hc1 c2 hc2 hne (string_data_eq heq)
  · simp only [List.mem_singleton, Prod.mk.injEq] at hmem
    obtain ⟨rfl, rfl⟩ := hmem
    have hle := containsList_length h2
    rcases Nat.lt_or_ge (lowerStr c2.text).data.length (lowerStr c1.text).data.length
        with hlt | hge
    · exact hlt
    · exfalso
      have heq := containsList_of_length_eq h2 (le_antisymm hle hge)
      exact hdist c2 hc2 c1 hc1 (Ne.symm hne) (string_data_eq heq)
  · simp at hmem
  · simp at hmem

theorem containment_edge_src (cs : List Concept) {a b : String}
    (hmem : (a, b) ∈ containmentEdges cs) : ∃ c2 ∈ cs, b = c2.text := by
  unfold containmentEdges at hmem
  rw [List.mem_flatMap] at hmem
  obtain ⟨c1, hc1, hmem⟩ := hmem
  rw [List.mem_flatMap] at hmem
  obtain ⟨c2, hc2, hmem⟩ := hmem
  split_ifs at hmem with hne h1 h2
  · simp only [List.mem_singleton, Prod.mk.injEq] at hmem
    exact ⟨c2, hc2, hmem.2⟩
  · simp only [List.mem_singleton, Prod.mk.injEq] at hmem
    exact ⟨c1, hc1, hmem.2⟩
  · simp at hmem
  · simp at hmem

theorem mem_successors {edges : List (String × String)} {n b : String}
    (h : b ∈ successors edges n) : (n, b) ∈ edges := by
  unfold successors at h
  rw [mem_pyDedup] at h
  obtain ⟨e, he, rfl⟩ := List.mem_map.mp h
  have := List.mem_filter.mp he
  have heq : e.1 = n := by simpa using this.2
  have : (e.1, e.2) ∈ edges := by simpa using this.1
  rwa [heq] at this

theorem foldl_max_init_le {α : Type} [LinearOrder α] :
    ∀ (l : List α) (init : α), init ≤ l.foldl max init := by
  intro l
  induction l with
  | nil => intro init; simp
  | cons x rest ih =>
    intro init
    calc init ≤ max init x := le_max_left _ _
    _ ≤ rest.foldl max (max init x) := ih _

theorem foldl_max_mem_le {α : Type} [LinearOrder α] :
    ∀ (l : List α) (init : α) (x : α), x ∈ l → x ≤ l.foldl max init := by
  intro l
  induction l with
  | nil => intro _ x hx; simp at hx
  | cons y rest ih =>
    intro init x hx
    rcases List.mem_cons.mp hx with rfl | hx
    · calc x ≤ max init x := le_max_right _ _
      _ ≤ rest.foldl max (max init x) := foldl_max_init_le _ _
    · exact ih _ _ hx

theorem foldl_min_le_init {α : Type} [LinearOrder α] :
    ∀ (l : List α) (init : α), l.foldl min init ≤ init := by
  intro l
  induction l with
  | nil => intro init; simp
  | cons x rest ih =>
    intro init
    calc rest.foldl min (min init x) ≤ min init x := ih _
    _ ≤ init := min_le_left _ _

theorem foldl_min_mem_le {α : Type} [LinearOrder α] :
    ∀ (l : List α) (init : α) (x : α), x ∈ l → l.foldl min init ≤ x := by
  intro l
  induction l with
  | nil => intro _ x hx; simp at hx
  | cons y rest ih =>
    intro init x hx
    rcases List.mem_cons.mp hx with rfl | hx
    · calc rest.foldl min (min init x) ≤ min init x := foldl_min_le_init _ _
      _ ≤ x := min_le_right _ _
    · exact ih _ _ hx

theorem lowerLen_le_maxLowerLen {cs : List Concept} {c : Concept} (hc : c ∈ cs) :
    (lowerStr c.text).data.length ≤ maxLowerLen cs :=
  foldl_max_mem_le _ 0 _ (List.mem_map.mpr ⟨c, hc, rfl⟩)

theorem optionMapM_isSome {α β : Type} (f : α → Option β) :
    ∀ l : List α, (∀ a ∈ l, (f a).isSome) → (l.mapM f).isSome := by
  intro l
  induction l with
  | nil => intro _; rfl
  | cons x rest ih =>
    intro h
    obtain ⟨y, hy⟩ := Option.isSome_iff_exists.mp (h x (List.mem_cons_self _ _))
    obtain ⟨ys, hys⟩ := Option.isSome_iff_exists.mp
      (ih fun a ha => h a (List.mem_cons_of_mem _ ha))
    rw [List.mapM_cons, hy]
    show ((List.mapM f rest).bind fun ys2 => some (y :: ys2)).isSome
    rw [hys]
    rfl

theorem buildSubtree_isSome_of_fuel (cs : List Concept)
    (hdist : ∀ c1 ∈ cs, ∀ c2 ∈ cs, c1.text ≠ c2.text →
      lowerStr c1.text ≠ lowerStr c2.text) :
    ∀ fuel node, maxLowerLen cs + 1 ≤ fuel + (lowerStr node).data.length →
      1 ≤ fuel → (buildSubtree (containmentEdges cs) fuel node).isSome := by
  intro fuel
  induction fuel with
  | zero => intro node _ h1; omega
  | succ n ih =>
    intro node hbound _
    show (buildSubtree (containmentEdges cs) (n + 1) node).isSome
    rw [buildSubtree]
    by_cases hempty : (successors (containmentEdges cs) node).isEmpty
    · simp [hempty]
    · simp only [hempty, Bool.false_eq_true, if_false]
      apply optionMapM_isSome
      intro b hb
      have hedge := mem_successors hb
      have hlt := containment_edge_lt cs hdist hedge
      obtain ⟨c2, hc2, rfl⟩ := containment_edge_src cs hedge
      have hmax := lowerLen_le_maxLowerLen hc2
      have hrec := ih c2.text (by omega) (by omega)
      rw [option_isSome_map]
      exact hrec

/-! ### C3 divergence on the two cycle -/

theorem c3_loop : ∀ fuel,
    buildSubtree (containmentEdges c3Concepts) fuel "Paris" = none ∧
    buildSubtree (containmentEdges c3Concepts) fuel "paris" = none := by
  intro fuel
  induction fuel with
  | zero => exact ⟨rfl, rfl⟩
  | succ n ih =>
    have hsucc1 : successors (containmentEdges c3Concepts) "Paris" = ["paris"] := by
      decide
    have hsucc2 : successors (containmentEdges c3Concepts) "paris" = ["Paris"] := by
      decide
    constructor
    · rw [buildSubtree, hsucc1]
      simp [List.mapM.loop, ih.2]
    · rw [buildSubtree, hsucc2]
      simp [List.mapM.loop, ih.1]

/-- C3 counterexample.  The claim states that _build_subtree tracks the
current root to node path and never re-descends into a node already on
that path, so that it terminates on every containment graph.  The source
recursion carries no path and no guard of any kind: on the containment
graph of two concepts whose texts differ only by case it revisits the two
nodes forever, so no recursion depth suffices. -/

theorem c3_subtree_counterexample :
    ¬ subtreeTerminates (containmentEdges c3Concepts) "Paris" := by
  rintro ⟨fuel, hsome⟩
  rw [(c3_loop fuel).1] at hsome
  simp at hsome

/-- C3 amended.  The recursion has no path guard, yet it terminates on
every containment graph built from concepts with pairwise case
insensitively distinct texts (the shape _extract_concepts produces):
every containment edge strictly increases the lowercased text length, so
recursion depth is bounded by the longest lowercased text, and hierarchy
generation succeeds at that fuel. -/

theorem c3_subtree_amended (cs : List Concept)
    (hdist : ∀ c1 ∈ cs, ∀ c2 ∈ cs, c1.text ≠ c2.text →
      lowerStr c1.text ≠ lowerStr c2.text) :
    (∀ node, (buildSubtree (containmentEdges cs) (maxLowerLen cs + 1) node).isSome) ∧
    (generateHierarchy cs (maxLowerLen cs + 1)).isSome := by
  have hnode : ∀ node,
      (buildSubtree (containmentEdges cs) (maxLowerLen cs + 1) node).isSome := by
    intro node
    exact buildSubtree_isSome_of_fuel cs hdist _ node (by omega) (by omega)
  refine ⟨hnode, ?_⟩
  unfold generateHierarchy
  rw [option_isSome_map]
  apply optionMapM_isSome
  intro r _
  rw [option_isSome_map]
  exact hnode r

/-- C3 witness. -/

theorem c3_subtree_amended_witness :
    (buildSubtree (containmentEdges c3wConcepts) (maxLowerLen c3wConcepts + 1)
      "dog").isSome ∧
    (generateHierarchy c3wConcepts (maxLowerLen c3wConcepts + 1)).isSome :=
  ⟨(c3_subtree_amended c3wConcepts (by decide)).1 "dog",
   (c3_subtree_amended c3wConcepts (by decide)).2⟩

/-! ## Claim theorems -/

/-- C1.  The claim states that _extract_relationships completes without
raising on any annotated text.  It does not: when an unordered pair gains
a co-occurrence edge and the syntactic phase later matches the same pair,
the code increments the weight and then reads the types attribute that a
co-occurrence edge never carries, raising KeyError.  This theorem
evaluates the embedded extraction at such an input. -/

theorem c1_relationships_keyError :
    extract_relationships c1Doc c1Concepts = Except.error (PyErr.keyError "types") := by
  rfl

/-- C2.  The claim states that a layout failure makes
generate_knowledge_map fall back to random coordinates and never
propagates.  It does not: the except branch evaluates random.random() but
mapper.py never imports random, so the fallback itself raises NameError,
which propagates to the caller.  This theorem evaluates the embedded
mapper at a failing layout. -/

theorem c2_layout_failure_nameError :
    generate_knowledge_map c2Input (Except.error "spring layout failed")
      (fun _ => (0, 0)) = Except.error (PyErr.nameError "random") := by
  rfl

/-- C4 counterexample.  The claim states that the type heuristic maps
every entity type of the extraction allow list to the hierarchical
strategy; LAW is in the allow list, yet the heuristic returns associative
for a start concept of type LAW. -/

theorem c4_heuristic_counterexample :
    "LAW" ∈ entityLabels ∧
      determine_journey_type "Freedom Act" c4Nodes none = "associative" ∧
      "associative" ≠ "hierarchical" := by
  refine ⟨by decide, by rfl, by decide⟩

/-- C4 amended.  With no user preferences the heuristic maps noun_phrase
and key_term to pattern_based, exactly the three entity types ORG, PERSON
and GPE to hierarchical, and every other start concept type (including
the remaining allow list entries LOC, PRODUCT, EVENT, WORK_OF_ART and
LAW) to associative. -/

theorem c4_heuristic_amended (nodes : List MapNode) (start : String) :
    (startConceptType nodes start ∈ ["noun_phrase", "key_term"] →
      determine_journey_type start nodes none = "pattern_based") ∧
    (startConceptType nodes start ∉ ["noun_phrase", "key_term"] →
      startConceptType nodes start ∈ ["ORG", "PERSON", "GPE"] →
      determine_journey_type start nodes none = "hierarchical") ∧
    (startConceptType nodes start ∉ ["noun_phrase", "key_term"] →
      startConceptType nodes start ∉ ["ORG", "PERSON", "GPE"] →
      determine_journey_type start nodes none = "associative") := by
  unfold determine_journey_type
  refine ⟨fun h1 => by simp [h1], fun h1 h2 => by simp [h1, h2], fun h1 h2 => by simp [h1, h2]⟩

/-- C4 witness. -/

theorem c4_heuristic_amended_witness :
    determine_journey_type "Acme" c4wNodes none = "hierarchical" :=
  (c4_heuristic_amended c4wNodes "Acme").2.1 (by decide) (by decide)

/-- C5.  Strategy selection honors the priority order for every node list
and start concept: an explicit preferred_journey_type naming a known
strategy wins outright, else pattern_seeking_level high, else
hierarchical_preference high, else associative_preference high, in that
order. -/

theorem c5_selection_priority (nodes : List MapNode) (start : String) (p : Prefs) :
    (∀ t, p.preferred_journey_type = some t → t ∈ journeyTypes →
      determine_journey_type start nodes (some p) = t) ∧
    (preferredType p = none → p.pattern_seeking_level = some "high" →
      determine_journey_type start nodes (some p) = "pattern_based") ∧
    (preferredType p = none → p.pattern_seeking_level ≠ some "high" →
      p.hierarchical_preference = some "high" →
      determine_journey_type start nodes (some p) = "hierarchical") ∧
    (preferredType p = none → p.pattern_seeking_level ≠ some "high" →
      p.hierarchical_preference ≠ some "high" →
      p.associative_preference = some "high" →
      determine_journey_type start nodes (some p) = "associative") := by
  unfold determine_journey_type
  refine ⟨fun t h1 h2 => ?_, fun h1 h2 => ?_, fun h1 h2 h3 => ?_, fun h1 h2 h3 h4 => ?_⟩
  · have : preferredType p = some t := by
      unfold preferredType
      rw [h1]
      simp [h2]
    simp [this]
  · simp [h1, h2]
  · simp [h1, h2, h3]
  · simp [h1, h2, h3, h4]

/-- C5 witness: the explicit preference selects hierarchical although the
start concept has type noun_phrase. -/

theorem c5_selection_priority_witness :
    determine_journey_type "X" c5wNodes (some c5Prefs) = "hierarchical" :=
  (c5_selection_priority c5wNodes "X" c5Prefs).1 "hierarchical" rfl (by decide)

/-- C8.  With a missing knowledge map, a missing start concept, or a start
concept absent from the node id set, generate_journey returns the default
journey: empty path, empty content, metadata medium, medium, default. -/

theorem c8_degenerate_inputs (km : Option KMap) (start : String)
    (prefs : Option Prefs) (rnd : RandO) (fuel : Nat)
    (h : km = none ∨ start = "" ∨ ∃ m, km = some m ∧ start ∉ m.nodes.map (·.id)) :
    generate_journey km start prefs rnd fuel =
      ⟨start, [], [], ⟨"medium", "medium", "default"⟩⟩ := by
  rcases h with h | h | ⟨m, hm, hstart⟩
  · rw [h]
    rfl
  · cases km with
    | none => rfl
    | some m =>
      simp only [generate_journey, h, if_pos]
      rfl
  · rw [hm]
    have hany : (m.nodes.any fun n => n.id = start) = false := by
      rw [List.any_eq_false]
      intro n hn
      simp only [decide_eq_true_eq]
      intro heq
      exact hstart (List.mem_map.mpr ⟨n, hn, heq⟩)
    by_cases hs : start = ""
    · simp only [generate_journey, hs, if_pos]
      rfl
    · simp only [generate_journey, hs, if_neg, hany]
      rfl

/-- C8 witness: a start concept absent from the node id set of the map. -/

theorem c8_degenerate_inputs_witness :
    generate_journey (some c8Map) "b" none ⟨fun xs k => xs.take k, fun xs => xs.headD ""⟩ 0 =
      ⟨"b", [], [], ⟨"medium", "medium", "default"⟩⟩ :=
  c8_degenerate_inputs (some c8Map) "b" none _ 0 (Or.inr (Or.inr ⟨c8Map, rfl, by decide⟩))

/-- C10.  Called on processed content whose content field is empty or
missing, extract_knowledge returns, without raising, exactly the record
with empty concepts, relationships and clusters and a bare empty
hierarchy mapping (no roots and no tree key, unlike the non empty
branch). -/

theorem c10_empty_content (pc : ProcessedContent) (nlp : String → Doc)
    (oracle : Option (List (String × Nat))) (fuel : Nat)
    (h : pc.content = none ∨ pc.content = some "") :
    extract_knowledge pc nlp oracle fuel = some (Except.ok ⟨[], [], none, []⟩) := by
  rcases h with h | h <;> simp [extract_knowledge, h]

/-- C10 witness. -/

theorem c10_empty_content_witness :
    extract_knowledge ⟨none⟩ (fun _ => ⟨[], [], []⟩) none 0 =
      some (Except.ok ⟨[], [], none, []⟩) :=
  c10_empty_content ⟨none⟩ (fun _ => ⟨[], [], []⟩) none 0 (Or.inl rfl)

theorem mem_collapseAux {c : Char} :
    ∀ (l : List Char) (b : Bool), c ∈ collapseAux b l → c = ' ' ∨ c ∈ l := by
  intro l
  induction l with
  | nil => intro b h; simp [collapseAux] at h
  | cons x rest ih =>
    intro b h
    by_cases hws : isWs x
    · by_cases hb : b
      · simp only [collapseAux, hws, hb, if_true] at h
        rcases ih true h with h1 | h1
        · exact Or.inl h1
        · exact Or.inr (List.mem_cons_of_mem _ h1)
      · simp only [collapseAux, hws, hb, if_true, Bool.false_eq_true, if_false] at h
        rcases List.mem_cons.mp h with rfl | h1
        · exact Or.inl rfl
        · rcases ih true h1 with h2 | h2
          · exact Or.inl h2
          · exact Or.inr (List.mem_cons_of_mem _ h2)
    · simp only [collapseAux, hws, Bool.false_eq_true, if_false] at h
      rcases List.mem_cons.mp h with rfl | h1
      · exact Or.inr (List.mem_cons_self _ _)
      · rcases ih false h1 with h2 | h2
        · exact Or.inl h2
        · exact Or.inr (List.mem_cons_of_mem _ h2)

theorem lowerStr_fixed_of_chars {s : String}
    (h : ∀ c ∈ s.data, lowerChar c = c) : lowerStr s = s := by
  apply string_data_eq
  rw [lowerStr_data]
  exact List.map_congr_left h |>.trans (List.map_id _)

theorem cleanPhrase_lower_fixed (ch : String) : lowerStr (cleanPhrase ch) = cleanPhrase ch := by
  apply lowerStr_fixed_of_chars
  intro c hc
  unfold cleanPhrase at hc
  rcases mem_collapseAux _ _ hc with rfl | hc2
  · rfl
  · rw [lowerStr_data] at hc2
    obtain ⟨c0, _, rfl⟩ := List.mem_map.mp hc2
    exact lowerChar_idem c0

theorem nounPhrases_lower_fixed {d : Doc} {p : String} (hp : p ∈ nounPhrases d) :
    lowerStr p = p := by
  unfold nounPhrases at hp
  obtain ⟨ch, _, hch⟩ := List.mem_filterMap.mp hp
  by_cases hcond : cleanPhrase ch ≠ "" ∧ (splitWs (cleanPhrase ch)).length ≤ 5
  · rw [if_pos hcond] at hch
    obtain rfl := Option.some.inj hch
    exact cleanPhrase_lower_fixed ch
  · rw [if_neg hcond] at hch
    exact absurd hch (by simp)

theorem filterMap_if_map_sublist {α β γ : Type} (l : List α) (pred : α → Prop)
    [DecidablePred pred] (g : α → β) (key : α → γ) (proj : β → γ)
    (hcomm : ∀ a, proj (g a) = key a) :
    ((l.filterMap fun a => if pred a then some (g a) else none).map proj).Sublist
      (l.map key) := by
  induction l with
  | nil => simp
  | cons x rest ih =>
    by_cases hx : pred x
    · simp only [List.filterMap_cons, hx, if_true, List.map_cons, hcomm]
      exact ih.cons₂ _
    · simp only [List.filterMap_cons, hx, if_false, List.map_cons]
      exact ih.cons _

theorem phraseStage_texts_sublist (d : Doc) :
    ((phraseStage d).map (·.text)).Sublist
      ((mostCommon (nounPhrases d) 50).map Prod.fst) := by
  unfold phraseStage
  exact filterMap_if_map_sublist _ _ _ _ _ (fun a => rfl)

theorem phraseStage_text_mem {d : Doc} {c : Concept} (hc : c ∈ phraseStage d) :
    c.text ∈ nounPhrases d := by
  unfold phraseStage at hc
  obtain ⟨p, hp, hpc⟩ := List.mem_filterMap.mp hc
  by_cases hcond : p.2 ≥ 2
  · rw [if_pos hcond] at hpc
    obtain rfl := Option.some.inj hpc
    exact mostCommon_keys_mem _ _ _ hp
  · rw [if_neg hcond] at hpc
    exact absurd hpc (by simp)

theorem phraseStage_lowNodup (d : Doc) : LowNodup (phraseStage d) := by
  unfold LowNodup
  have hmapeq : ((phraseStage d).map fun c => lowerStr c.text) =
      (phraseStage d).map (·.text) := by
    apply List.map_congr_left
    intro c hc
    exact nounPhrases_lower_fixed (phraseStage_text_mem hc)
  rw [hmapeq]
  exact (phraseStage_texts_sublist d).nodup (mostCommon_keys_nodup _ _)

theorem entityStage_lowNodup :
    ∀ (es : List Ent) (acc : List Concept), LowNodup acc →
      LowNodup (entityStage acc es) := by
  intro es
  induction es with
  | nil => intro acc h; exact h
  | cons e rest ih =>
    intro acc h
    show LowNodup (entityStage acc (e :: rest))
    unfold entityStage
    by_cases hguard : (acc.any fun c => lowerStr c.text = lowerStr e.text) = true
    · rw [if_pos hguard]
      exact ih acc h
    · rw [if_neg hguard]
      apply ih
      unfold LowNodup at h ⊢
      rw [List.map_append, List.nodup_append]
      refine ⟨h, by simp, ?_⟩
      intro x hx hx2
      simp only [List.map_cons, List.map_nil, List.mem_singleton] at hx2
      obtain ⟨c, hc, rfl⟩ := List.mem_map.mp hx
      rw [Bool.not_eq_true, List.any_eq_false] at hguard
      have := hguard c hc
      simp only [decide_eq_true_eq] at this
      exact this hx2

theorem splitWsAux_no_ws :
    ∀ (l cur : List Char), (∀ c ∈ l, isWs c = false) →
      splitWsAux cur l = if (cur.reverse ++ l).isEmpty then [] else [cur.reverse ++ l] := by
  intro l
  induction l with
  | nil =>
    intro cur _
    simp only [splitWsAux, List.append_nil]
    rcases cur with _ | ⟨c, cs⟩
    · rfl
    · simp [List.isEmpty_iff]
  | cons c rest ih =>
    intro cur hws
    have hc : isWs c = false := hws c (List.mem_cons_self _ _)
    simp only [splitWsAux, hc, Bool.false_eq_true, if_false]
    rw [ih (c :: cur) fun x hx => hws x (List.mem_cons_of_mem _ hx)]
    have : (c :: cur).reverse ++ rest = cur.reverse ++ (c :: rest) := by
      simp
    rw [this]

theorem splitWs_singleton {s : String} (hne : s.data ≠ [])
    (hws : ∀ c ∈ s.data, isWs c = false) : splitWs s = [s] := by
  unfold splitWs
  rw [splitWsAux_no_ws s.data [] hws]
  have : (([] : List Char).reverse ++ s.data).isEmpty = false := by
    simpa [List.isEmpty_iff] using hne
  rw [this]
  simp only [List.reverse_nil, List.nil_append, Bool.false_eq_true, if_false,
    List.map_cons, List.map_nil]

theorem keyTerms_good {d : Doc}
    (htok : ∀ t ∈ docTokens d, ∀ ch ∈ t.text.data, isWs ch = false) :
    ∀ w ∈ keyTerms d, GoodTerm w := by
  intro w hw
  unfold keyTerms at hw
  obtain ⟨t, ht, hwt⟩ := List.mem_filterMap.mp hw
  split_ifs at hwt with hcond
  · obtain rfl := Option.some.inj hwt
    refine ⟨lowerStr_idem t.text, ?_, ?_⟩
    · rw [lowerStr_data]
      intro hcontra
      have := List.map_eq_nil_iff.mp hcontra
      rw [this] at hcond
      simp at hcond
    · intro c hc
      rw [lowerStr_data] at hc
      obtain ⟨c0, hc0, rfl⟩ := List.mem_map.mp hc
      rw [isWs_lowerChar]
      exact htok t ht c0 hc0

theorem termStage_lowNodup (d : Doc) :
    ∀ (tcs : List (String × Nat)) (acc : List Concept),
      (∀ p ∈ tcs, GoodTerm p.1) → LowNodup acc →
      LowNodup (termStage d acc tcs) := by
  intro tcs
  induction tcs with
  | nil => intro acc _ h; exact h
  | cons p rest ih =>
    intro acc hgood h
    show LowNodup (termStage d acc (p :: rest))
    unfold termStage
    have hrest : ∀ q ∈ rest, GoodTerm q.1 :=
      fun q hq => hgood q (List.mem_cons_of_mem _ hq)
    by_cases hguard : p.2 ≥ 3 ∧
        ¬ (acc.any fun c => p.1 ∈ splitWs (lowerStr c.text)) = true
    · rw [if_pos hguard]
      apply ih _ hrest
      obtain ⟨hfix, hne, hws⟩ := hgood p (List.mem_cons_self _ _)
      unfold LowNodup at h ⊢
      rw [List.map_append, List.nodup_append]
      refine ⟨h, by simp, ?_⟩
      intro x hx hx2
      simp only [List.map_cons, List.map_nil, List.mem_singleton] at hx2
      obtain ⟨c, hc, rfl⟩ := List.mem_map.mp hx
      rw [hfix] at hx2
      have hsplit : splitWs (lowerStr c.text) = [p.1] := by
        rw [hx2]
        exact splitWs_singleton hne hws
      have hmem : p.1 ∈ splitWs (lowerStr c.text) := by
        rw [hsplit]
        exact List.mem_singleton.mpr rfl
      have h2 := hguard.2
      rw [Bool.not_eq_true, List.any_eq_false] at h2
      have hc2 := h2 c hc
      simp only [decide_eq_true_eq] at hc2
      exact hc2 hmem
    · rw [if_neg hguard]
      exact ih _ hrest h

/-- C6.  On every annotated document whose tokens are whitespace free (a
property of the tokenizer collaborator), the concept list returned by
_extract_concepts has pairwise case insensitively distinct texts, at most
one hundred entries, and is sorted non increasing by importance. -/

theorem c6_concept_list_invariants (d : Doc)
    (htok : ∀ t ∈ docTokens d, ∀ ch ∈ t.text.data, isWs ch = false) :
    ((extract_concepts d).map fun c => lowerStr c.text).Nodup ∧
    (extract_concepts d).length ≤ 100 ∧
    List.Sorted (fun a b : Concept => b.importance ≤ a.importance)
      (extract_concepts d) := by
  have hnodup3 : LowNodup (termStage d
      (entityStage (phraseStage d) (entitiesOf d)) (mostCommon (keyTerms d) 30)) := by
    apply termStage_lowNodup
    · intro p hp
      exact keyTerms_good htok p.1 (mostCommon_keys_mem _ _ _ hp)
    · exact entityStage_lowNodup _ _ (phraseStage_lowNodup d)
  unfold LowNodup at hnodup3
  refine ⟨?_, ?_, ?_⟩
  · unfold extract_concepts
    have hperm := List.perm_insertionSort
      (fun a b : Concept => b.importance ≤ a.importance)
      (termStage d (entityStage (phraseStage d) (entitiesOf d))
        (mostCommon (keyTerms d) 30))
    have hperm2 := hperm.map (fun c : Concept => lowerStr c.text)
    have hsorted_nodup := hperm2.nodup_iff.mpr hnodup3
    exact ((List.take_sublist _ _).map _).nodup hsorted_nodup
  · unfold extract_concepts
    exact List.length_take_le _ _
  · unfold extract_concepts
    haveI : IsTotal Concept fun a b : Concept => b.importance ≤ a.importance :=
      ⟨fun a b => le_total b.importance a.importance⟩
    haveI : IsTrans Concept fun a b : Concept => b.importance ≤ a.importance :=
      ⟨fun _ _ _ h1 h2 => le_trans h2 h1⟩
    have hsorted := List.sorted_insertionSort
      (fun a b : Concept => b.importance ≤ a.importance)
      (termStage d (entityStage (phraseStage d) (entitiesOf d))
        (mostCommon (keyTerms d) 30))
    exact hsorted.sublist (List.take_sublist _ _)

/-- C6 witness. -/

theorem c6_concept_list_invariants_witness :
    ((extract_concepts c6Doc).map fun c => lowerStr c.text).Nodup ∧
    (extract_concepts c6Doc).length ≤ 100 ∧
    List.Sorted (fun a b : Concept => b.importance ≤ a.importance)
      (extract_concepts c6Doc) :=
  c6_concept_list_invariants c6Doc (by decide)

/-! ### Support lemmas for C7 -/

theorem listMin_le_mem {l : List ℚ} {x : ℚ} (hx : x ∈ l) : listMin l ≤ x := by
  cases l with
  | nil => simp at hx
  | cons y rest =>
    rcases List.mem_cons.mp hx with rfl | hx2
    · exact foldl_min_le_init rest x
    · exact foldl_min_mem_le rest y x hx2

theorem mem_le_listMax {l : List ℚ} {x : ℚ} (hx : x ∈ l) : x ≤ listMax l := by
  cases l with
  | nil => simp at hx
  | cons y rest =>
    rcases List.mem_cons.mp hx with rfl | hx2
    · exact foldl_max_init_le rest x
    · exact foldl_max_mem_le rest y x hx2

theorem norm_bound {vals : List ℚ} {v : ℚ} (hv : v ∈ vals) :
    0 ≤ (v - listMin vals) / coordRange vals ∧
      (v - listMin vals) / coordRange vals ≤ 1 := by
  have hmin := listMin_le_mem hv
  have hmax := mem_le_listMax hv
  unfold coordRange
  by_cases hlt : listMin vals < listMax vals
  · rw [if_pos hlt]
    have hpos : 0 < listMax vals - listMin vals := by linarith
    constructor
    · apply div_nonneg <;> linarith
    · rw [div_le_one hpos]
      linarith
  · rw [if_neg hlt]
    have : v = listMin vals := by
      push_neg at hlt
      linarith
    rw [this]
    norm_num

theorem size_bound {t : ℚ} (h0 : 0 ≤ t) (h1 : t ≤ 1) :
    5 ≤ 5 + t * 15 ∧ 5 + t * 15 ≤ 20 := by
  constructor <;> nlinarith

theorem listSum_eq_sum_get {M : Type} [AddCommMonoid M] :
    ∀ (l : List M), (∑ i : Fin l.length, l.get i) = l.sum := by
  intro l
  induction l with
  | nil => simp
  | cons x rest ih =>
    show (∑ i : Fin (rest.length + 1), (x :: rest).get i) = (x :: rest).sum
    rw [Fin.sum_univ_succ, List.sum_cons]
    congr 1

theorem listSum_fst (ps : List (ℚ × ℚ)) : (ps.map Prod.fst).sum = ps.sum.1 := by
  induction ps with
  | nil => rfl
  | cons p rest ih => simp [ih]

theorem listSum_snd (ps : List (ℚ × ℚ)) : (ps.map Prod.snd).sum = ps.sum.2 := by
  induction ps with
  | nil => rfl
  | cons p rest ih => simp [ih]

theorem mean_mem_convexHull (ps : List (ℚ × ℚ)) (hne : ps ≠ []) :
    (meanQ (ps.map Prod.fst), meanQ (ps.map Prod.snd)) ∈
      convexHull ℚ {p : ℚ × ℚ | p ∈ ps} := by
  have hlen : 0 < ps.length := List.length_pos.mpr hne
  have hlenQ : 0 < (ps.length : ℚ) := by exact_mod_cast hlen
  have hsum : 0 < ∑ _i : Fin ps.length, (1 : ℚ) := by
    simp only [Finset.sum_const, Finset.card_univ, Fintype.card_fin, nsmul_eq_mul, mul_one]
    exact hlenQ
  have hcm := Finset.centerMass_mem_convexHull (s := {p : ℚ × ℚ | p ∈ ps})
    (Finset.univ : Finset (Fin ps.length)) (w := fun _ => (1 : ℚ))
    (fun _ _ => zero_le_one) hsum
    (z := fun i => ps.get i) (fun i _ => List.get_mem ps i.1 i.2)
  have hval : (Finset.univ : Finset (Fin ps.length)).centerMass
      (fun _ => (1 : ℚ)) (fun i => ps.get i) =
      (meanQ (ps.map Prod.fst), meanQ (ps.map Prod.snd)) := by
    unfold Finset.centerMass
    simp only [Finset.sum_const, Finset.card_univ, Fintype.card_fin, nsmul_eq_mul,
      mul_one, one_smul]
    rw [listSum_eq_sum_get]
    rw [Prod.smul_def]
    unfold meanQ
    rw [listSum_fst, listSum_snd, List.length_map, List.length_map]
    rw [Prod.mk.injEq]
    constructor <;> rw [smul_eq_mul, inv_mul_eq_div]
  rw [hval] at hcm
  exact hcm

/-- C7.  For a nonempty concept list whose relationship endpoints are
concept texts, a successful layout yields a map in which every node has
x and y in the unit interval and size between 5 and 20 (the degenerate
equal coordinate or equal importance case uses range one), and every
cluster center equals the arithmetic mean of its member node positions
and therefore lies in the convex hull of those positions. -/

theorem c7_map_geometry (ek : ExtractedInput) (pos : String → ℚ × ℚ)
    (rng : String → ℚ × ℚ) (hne : ek.concepts ≠ [])
    (hend : ∀ r ∈ ek.relationships,
      (∃ c ∈ ek.concepts, c.text = r.source) ∧
      (∃ c ∈ ek.concepts, c.text = r.target)) :
    ∃ m : KMap, generate_knowledge_map ek (Except.ok pos) rng = Except.ok m ∧
      (∀ n ∈ m.nodes, 0 ≤ n.x ∧ n.x ≤ 1 ∧ 0 ≤ n.y ∧ n.y ≤ 1 ∧
        5 ≤ n.size ∧ n.size ≤ 20) ∧
      (∀ cl ∈ m.clusters,
        mapClusterMembers m.nodes cl.concepts ≠ [] ∧
        cl.center.1 = meanQ ((mapClusterMembers m.nodes cl.concepts).map (·.x)) ∧
        cl.center.2 = meanQ ((mapClusterMembers m.nodes cl.concepts).map (·.y)) ∧
        cl.center ∈ convexHull ℚ
          {p : ℚ × ℚ |
            p ∈ (mapClusterMembers m.nodes cl.concepts).map fun n => (n.x, n.y)}) := by
  have hempty : ek.concepts.isEmpty = false := by
    cases h : ek.concepts
    · exact absurd h hne
    · rfl
  have hall : ((mapperNodes ek).all fun n => (nodeAttr ek.concepts n).isSome) = true := by
    rw [List.all_eq_true]
    intro n hn
    have hn2 : n ∈ ek.concepts.map (·.text) ++
        ek.relationships.flatMap fun r => [r.source, r.target] := by
      unfold mapperNodes at hn
      exact (mem_pyDedup _ _).mp hn
    have hmem : ∃ c ∈ ek.concepts, c.text = n := by
      rcases List.mem_append.mp hn2 with h1 | h1
      · obtain ⟨c, hc, rfl⟩ := List.mem_map.mp h1
        exact ⟨c, hc, rfl⟩
      · obtain ⟨r, hr, hnr⟩ := List.mem_flatMap.mp h1
        simp only [List.mem_cons, List.mem_singleton] at hnr
        rcases hnr with rfl | rfl | hfalse
        · exact (hend r hr).1
        · exact (hend r hr).2
        · simp at hfalse
    obtain ⟨c, hc, hctext⟩ := hmem
    unfold nodeAttr
    rw [List.find?_isSome]
    exact ⟨c, List.mem_reverse.mpr hc, by simp [hctext]⟩
  rw [generate_knowledge_map]
  have hnotc : ¬ (ek.concepts.isEmpty = true) := by
    rw [hempty]
    exact Bool.false_ne_true
  rw [if_neg hnotc]
  rw [if_pos hall]
  refine ⟨_, rfl, ?_, ?_⟩
  · intro n hn
    obtain ⟨nid, hnid, rfl⟩ := List.mem_map.mp hn
    have hxmem : (pos nid).1 ∈ mapperXs ek pos := List.mem_map.mpr ⟨nid, hnid, rfl⟩
    have hymem : (pos nid).2 ∈ mapperYs ek pos := List.mem_map.mpr ⟨nid, hnid, rfl⟩
    have himem : mapperImpOf ek nid ∈ mapperImps ek := List.mem_map.mpr ⟨nid, hnid, rfl⟩
    have hx := norm_bound hxmem
    have hy := norm_bound hymem
    have himp := norm_bound himem
    have hsize := size_bound himp.1 himp.2
    exact ⟨hx.1, hx.2, hy.1, hy.2, hsize.1, hsize.2⟩
  · intro cl hcl
    unfold mapperClusterData at hcl
    obtain ⟨mcl, hmcl, hclval⟩ := List.mem_filterMap.mp hcl
    dsimp only at hclval
    by_cases hm : (mapClusterMembers (mapperNodeList ek pos) mcl.concepts).isEmpty = true
    · rw [if_pos hm] at hclval
      exact absurd hclval (by simp)
    · rw [if_neg hm] at hclval
      obtain rfl := Option.some.inj hclval
      have hmem_ne : mapClusterMembers (mapperNodeList ek pos) mcl.concepts ≠ [] := by
        intro hcontra
        rw [hcontra] at hm
        exact hm rfl
      refine ⟨hmem_ne, rfl, rfl, ?_⟩
      have hhull := mean_mem_convexHull
        ((mapClusterMembers (mapperNodeList ek pos) mcl.concepts).map fun n => (n.x, n.y))
        (by
          intro hcontra
          exact hmem_ne (List.map_eq_nil_iff.mp hcontra))
      rw [List.map_map, List.map_map] at hhull
      exact hhull

/-- C7 witness. -/

theorem c7_map_geometry_witness :
    ∃ m : KMap, generate_knowledge_map c7Input (Except.ok fun _ => (0, 0))
        (fun _ => (0, 0)) = Except.ok m ∧
      (∀ n ∈ m.nodes, 0 ≤ n.x ∧ n.x ≤ 1 ∧ 0 ≤ n.y ∧ n.y ≤ 1 ∧
        5 ≤ n.size ∧ n.size ≤ 20) ∧
      (∀ cl ∈ m.clusters,
        mapClusterMembers m.nodes cl.concepts ≠ [] ∧
        cl.center.1 = meanQ ((mapClusterMembers m.nodes cl.concepts).map (·.x)) ∧
        cl.center.2 = meanQ ((mapClusterMembers m.nodes cl.concepts).map (·.y)) ∧
        cl.center ∈ convexHull ℚ
          {p : ℚ × ℚ |
            p ∈ (mapClusterMembers m.nodes cl.concepts).map fun n => (n.x, n.y)}) :=
  c7_map_geometry c7Input (fun _ => (0, 0)) (fun _ => (0, 0)) (by decide) (by decide)

theorem startState_good {ids : List String} {start : String} (hstart : start ∈ ids) :
    GoodState ids ⟨[start], [start]⟩ := by
  refine ⟨List.nodup_singleton _, ?_, ?_⟩ <;>
    intro c hc <;> rw [List.mem_singleton.mp hc] <;> simp [hstart]

theorem pushConcept_good {ids : List String} {st : PathSt} {c : String}
    (h : GoodState ids st) (hc : c ∈ ids) (hv : c ∉ st.visited) :
    GoodState ids (pushConcept st c) := by
  obtain ⟨h1, h2, h3⟩ := h
  refine ⟨?_, ?_, ?_⟩
  · show (st.path ++ [c]).Nodup
    rw [List.nodup_append]
    refine ⟨h1, List.nodup_singleton _, ?_⟩
    intro x hx hx2
    rw [List.mem_singleton] at hx2
    subst hx2
    exact hv (h3 x hx)
  · intro x hx
    rcases List.mem_append.mp hx with hx1 | hx1
    · exact h2 x hx1
    · rw [List.mem_singleton] at hx1
      subst hx1
      exact hc
  · intro x hx
    rcases List.mem_append.mp hx with hx1 | hx1
    · exact List.mem_cons_of_mem _ (h3 x hx1)
    · rw [List.mem_singleton] at hx1
      subst hx1
      exact List.mem_cons_self _ _

theorem guardedPush_good {ids : List String} {st : PathSt} {c : String} {extra : Bool}
    (h : GoodState ids st) (hc : c ∈ ids) :
    GoodState ids (guardedPush st c extra) := by
  unfold guardedPush
  split_ifs with hcond
  · exact pushConcept_good h hc hcond.1
  · exact h

theorem foldl_good {α : Type} (ids : List String) (step : PathSt → α → PathSt)
    (L : List α)
    (hstep : ∀ st a, a ∈ L → GoodState ids st → GoodState ids (step st a)) :
    ∀ st, GoodState ids st → GoodState ids (L.foldl step st) := by
  induction L with
  | nil => intro st h; exact h
  | cons a rest ih =>
    intro st h
    rw [List.foldl_cons]
    exact ih (fun st2 b hb h2 => hstep st2 b (List.mem_cons_of_mem _ hb) h2) _
      (hstep st a (List.mem_cons_self _ _) h)

theorem padFold_good (ids : List String) :
    ∀ (chosen : List String) (st : PathSt), GoodState ids st → chosen.Nodup →
      (∀ c ∈ chosen, c ∈ ids) → (∀ c ∈ chosen, c ∉ st.visited) →
      GoodState ids (chosen.foldl (fun st2 c =>
        if st2.path.length < 5 then pushConcept st2 c else st2) st) := by
  intro chosen
  induction chosen with
  | nil => intro st h _ _ _; exact h
  | cons c rest ih =>
    intro st h hnodup hin hvis
    rw [List.foldl_cons]
    have hc_ids := hin c (List.mem_cons_self _ _)
    have hc_vis := hvis c (List.mem_cons_self _ _)
    have hrest_in : ∀ x ∈ rest, x ∈ ids := fun x hx => hin x (List.mem_cons_of_mem _ hx)
    by_cases hlen : st.path.length < 5
    · rw [if_pos hlen]
      apply ih _ (pushConcept_good h hc_ids hc_vis) (List.Nodup.of_cons hnodup) hrest_in
      intro x hx hmem
      rcases List.mem_cons.mp hmem with rfl | hmem2
      · exact (List.nodup_cons.mp hnodup).1 hx
      · exact hvis x (List.mem_cons_of_mem _ hx) hmem2
    · rw [if_neg hlen]
      exact ih _ h (List.Nodup.of_cons hnodup) hrest_in
        (fun x hx => hvis x (List.mem_cons_of_mem _ hx))

theorem similarConcepts_nodup (nodes : List MapNode) (visited : List String) (si : ℚ) :
    (similarConcepts nodes visited si).Nodup := by
  unfold similarConcepts
  apply List.Nodup.filterMap
  · intro a a' b hb hb'
    split_ifs at hb hb' with h1 h2
    · rw [Option.mem_def] at hb hb'
      rw [Option.some.inj hb, Option.some.inj hb']
    all_goals simp at hb hb'
  · exact nodup_pyDedup _

theorem similarConcepts_mem {nodes : List MapNode} {visited : List String} {si : ℚ}
    {c : String} (hc : c ∈ similarConcepts nodes visited si) :
    c ∈ nodes.map (·.id) ∧ c ∉ visited := by
  unfold similarConcepts at hc
  obtain ⟨nid, hnid, hcond⟩ := List.mem_filterMap.mp hc
  split_ifs at hcond with hcond2
  · obtain rfl := Option.some.inj hcond
    exact ⟨(mem_pyDedup _ _).mp hnid, hcond2.1⟩

theorem padWithSimilar_spec (nodes : List MapNode) (rnd : RandO) (start : String)
    (st : PathSt)
    (hsample : ∀ xs k, xs.Nodup → (rnd.sample xs k).Nodup ∧ ∀ y ∈ rnd.sample xs k, y ∈ xs)
    (h : GoodState (nodes.map (·.id)) st) :
    (padWithSimilar nodes rnd start st).Nodup ∧
      ∀ c ∈ padWithSimilar nodes rnd start st, c ∈ nodes.map (·.id) := by
  unfold padWithSimilar
  split_ifs with hlen
  · obtain ⟨hch_nodup, hch_sub⟩ := hsample
      (similarConcepts nodes st.visited (((nodeLookup nodes start).map (·.importance)).getD (1/2)))
      (min 3 (similarConcepts nodes st.visited
        (((nodeLookup nodes start).map (·.importance)).getD (1/2))).length)
      (similarConcepts_nodup nodes st.visited _)
    have hgood := padFold_good (nodes.map (·.id)) _ st h hch_nodup
      (fun c hc => (similarConcepts_mem (hch_sub c hc)).1)
      (fun c hc => (similarConcepts_mem (hch_sub c hc)).2)
    exact ⟨hgood.1, hgood.2.1⟩
  · exact ⟨h.1, h.2.1⟩

theorem graphAdj_mem_aux (n : String) :
    ∀ (links : List MapLink) (acc : List (String × ℚ)) (p : String × ℚ),
      p ∈ links.foldl (fun acc2 l =>
        let acc3 := if l.source = n then acc2 ++ [(l.target, l.weight)] else acc2
        if l.target = n then acc3 ++ [(l.source, l.weight)] else acc3) acc →
      p ∈ acc ∨ ∃ l ∈ links, p.1 = l.target ∨ p.1 = l.source := by
  intro links
  induction links with
  | nil => intro acc p hp; exact Or.inl hp
  | cons l rest ih =>
    intro acc p hp
    rw [List.foldl_cons] at hp
    rcases ih _ p hp with hacc | ⟨l2, hl2, hor⟩
    · by_cases h1 : l.source = n <;> by_cases h2 : l.target = n <;>
        simp only [h1, h2, if_true, if_false] at hacc
      · rcases List.mem_append.mp hacc with hacc2 | hacc2
        · rcases List.mem_append.mp hacc2 with hacc3 | hacc3
          · exact Or.inl hacc3
          · rw [List.mem_singleton] at hacc3
            exact Or.inr ⟨l, List.mem_cons_self _ _, Or.inl (by rw [hacc3]; exact h2.symm)⟩
        · rw [List.mem_singleton] at hacc2
          exact Or.inr ⟨l, List.mem_cons_self _ _, Or.inr (by rw [hacc2]; exact h1.symm)⟩
      · rcases List.mem_append.mp hacc with hacc2 | hacc2
        · exact Or.inl hacc2
        · rw [List.mem_singleton] at hacc2
          exact Or.inr ⟨l, List.mem_cons_self _ _, Or.inl (by rw [hacc2])⟩
      · rcases List.mem_append.mp hacc with hacc2 | hacc2
        · exact Or.inl hacc2
        · rw [List.mem_singleton] at hacc2
          exact Or.inr ⟨l, List.mem_cons_self _ _, Or.inr (by rw [hacc2])⟩
      · exact Or.inl hacc
    · exact Or.inr ⟨l2, List.mem_cons_of_mem _ hl2, hor⟩

theorem graphAdj_mem {links : List MapLink} {n : String} {p : String × ℚ}
    (hp : p ∈ graphAdj links n) :
    ∃ l ∈ links, p.1 = l.target ∨ p.1 = l.source := by
  unfold graphAdj at hp
  rcases graphAdj_mem_aux n links [] p hp with h | h
  · simp at h
  · exact h

theorem graphAdj_fst_mem_ids {links : List MapLink} {nodes : List MapNode}
    {n : String} {p : String × ℚ}
    (hlinks : ∀ l ∈ links, l.source ∈ nodes.map (·.id) ∧ l.target ∈ nodes.map (·.id))
    (hp : p ∈ graphAdj links n) : p.1 ∈ nodes.map (·.id) := by
  obtain ⟨l, hl, hor⟩ := graphAdj_mem hp
  rcases hor with h | h
  · rw [h]
    exact (hlinks l hl).2
  · rw [h]
    exact (hlinks l hl).1

theorem primaryCluster_mem :
    ∀ (t : List MapCluster) (h : MapCluster), primaryCluster h t ∈ h :: t := by
  intro t
  unfold primaryCluster
  induction t with
  | nil => intro h; exact List.mem_cons_self _ _
  | cons c rest ih =>
    intro h
    rw [List.foldl_cons]
    by_cases hc : h.size < c.size
    · rw [if_pos hc]
      exact List.mem_cons_of_mem _ (ih c)
    · rw [if_neg hc]
      rcases List.mem_cons.mp (ih h) with h1 | h1
      · rw [h1]
        exact List.mem_cons_self _ _
      · exact List.mem_cons_of_mem _ (List.mem_cons_of_mem _ h1)

theorem get_children_mem {tree : List (String × List SubT)} {k c : String}
    (hc : c ∈ get_children_from_tree k tree) :
    ∃ e ∈ tree, ∃ cd ∈ e.2, c = cd.concept := by
  unfold get_children_from_tree at hc
  cases hfind : tree.reverse.find? fun e => e.1 = k with
  | none =>
    rw [hfind] at hc
    simp at hc
  | some e =>
    rw [hfind] at hc
    simp only [Option.map_some', Option.getD_some] at hc
    obtain ⟨cd, hcd, rfl⟩ := List.mem_map.mp hc
    exact ⟨e, List.mem_reverse.mp (List.mem_of_find?_eq_some hfind), cd, hcd, rfl⟩

theorem default_path_spec (start : String) (nodes : List MapNode)
    (links : List MapLink) (rnd : RandO)
    (hstart : start ∈ nodes.map (·.id))
    (hlinks : ∀ l ∈ links, l.source ∈ nodes.map (·.id) ∧ l.target ∈ nodes.map (·.id))
    (hsample : ∀ xs k, xs.Nodup → (rnd.sample xs k).Nodup ∧ ∀ y ∈ rnd.sample xs k, y ∈ xs) :
    (generate_default_path start nodes links rnd).Nodup ∧
      ∀ c ∈ generate_default_path start nodes links rnd, c ∈ nodes.map (·.id) := by
  unfold generate_default_path
  apply padWithSimilar_spec nodes rnd start _ hsample
  apply foldl_good (nodes.map (·.id)) _ _ ?_ _ (startState_good hstart)
  intro st p hp hgood
  apply guardedPush_good hgood
  apply graphAdj_fst_mem_ids hlinks (n := start)
  exact (List.perm_insertionSort _ _).mem_iff.mp (List.mem_of_mem_take hp)

theorem any_id_mem {nodes : List MapNode} {c : String}
    (h : (nodes.any fun n => n.id = c) = true) : c ∈ nodes.map (·.id) := by
  rw [List.any_eq_true] at h
  obtain ⟨n, hn, hnc⟩ := h
  rw [decide_eq_true_eq] at hnc
  exact List.mem_map.mpr ⟨n, hn, hnc⟩

theorem patternSt1_good (start : String) (nodes : List MapNode)
    (links : List MapLink) (primary : MapCluster)
    (hstart : start ∈ nodes.map (·.id)) :
    GoodState (nodes.map (·.id)) (patternSt1 start nodes links primary) := by
  unfold patternSt1
  apply foldl_good (nodes.map (·.id)) _ _ ?_ _ (startState_good hstart)
  intro st p hp hgood
  apply guardedPush_good hgood
  have hp2 : p ∈ patternConnected start nodes links primary.concepts :=
    (List.perm_insertionSort _ _).mem_iff.mp (List.mem_of_mem_take hp)
  unfold patternConnected at hp2
  obtain ⟨c, _, hcond⟩ := List.mem_filterMap.mp hp2
  split_ifs at hcond with hcond2
  · obtain rfl := Option.some.inj hcond
    exact any_id_mem hcond2.2

theorem patternSt2_good (start : String) (nodes : List MapNode)
    (links : List MapLink) (primary : MapCluster)
    (hstart : start ∈ nodes.map (·.id)) :
    GoodState (nodes.map (·.id)) (patternSt2 start nodes links primary) := by
  unfold patternSt2
  apply foldl_good (nodes.map (·.id)) _ _ ?_ _ (patternSt1_good start nodes links primary hstart)
  intro st p hp hgood
  apply guardedPush_good hgood
  have hp2 : p ∈ patternCandidates nodes links (patternSt1 start nodes links primary) :=
    (List.perm_insertionSort _ _).mem_iff.mp (List.mem_of_mem_take hp)
  unfold patternCandidates at hp2
  obtain ⟨nid, hnid, hcond⟩ := List.mem_filterMap.mp hp2
  split_ifs at hcond with h1 h2
  · obtain rfl := Option.some.inj hcond
    exact (mem_pyDedup _ _).mp hnid

theorem pattern_path_spec (start : String) (nodes : List MapNode)
    (links : List MapLink) (clusters : List MapCluster) (rnd : RandO)
    (hstart : start ∈ nodes.map (·.id))
    (hlinks : ∀ l ∈ links, l.source ∈ nodes.map (·.id) ∧ l.target ∈ nodes.map (·.id))
    (hclusters : ∀ cl ∈ clusters, ∀ c ∈ cl.concepts, c ∈ nodes.map (·.id))
    (hsample : ∀ xs k, xs.Nodup → (rnd.sample xs k).Nodup ∧ ∀ y ∈ rnd.sample xs k, y ∈ xs) :
    (generate_pattern_based_path start nodes links clusters rnd).Nodup ∧
      ∀ c ∈ generate_pattern_based_path start nodes links clusters rnd,
        c ∈ nodes.map (·.id) := by
  unfold generate_pattern_based_path
  cases hfil : clusters.filter fun c => start ∈ c.concepts with
  | nil => exact default_path_spec start nodes links rnd hstart hlinks hsample
  | cons hcl tcl =>
    have hprim : primaryCluster hcl tcl ∈ clusters := by
      have h1 := primaryCluster_mem tcl hcl
      rw [← hfil] at h1
      exact List.mem_of_mem_filter h1
    have hconcepts : ∀ c ∈ (primaryCluster hcl tcl).concepts, c ∈ nodes.map (·.id) :=
      hclusters _ hprim
    show (patternTail start nodes links (primaryCluster hcl tcl)).Nodup ∧
      ∀ c ∈ patternTail start nodes links (primaryCluster hcl tcl), c ∈ nodes.map (·.id)
    unfold patternTail
    split_ifs with hlen
    · have hgood := foldl_good (nodes.map (·.id))
        (fun st c => guardedPush st c (decide (st.path.length < 5)))
        (primaryCluster hcl tcl).concepts
        (fun st a ha hg => guardedPush_good hg (hconcepts a ha)) _
        (patternSt2_good start nodes links (primaryCluster hcl tcl) hstart)
      exact ⟨hgood.1, hgood.2.1⟩
    · have hgood := patternSt2_good start nodes links (primaryCluster hcl tcl) hstart
      exact ⟨hgood.1, hgood.2.1⟩

theorem hierParentStep_good {nodes : List MapNode} {parent : Option String} {st : PathSt}
    (h : GoodState (nodes.map (·.id)) st)
    (hpar : ∀ p, parent = some p → p ∈ nodes.map (·.id)) :
    GoodState (nodes.map (·.id)) (hierParentStep parent st) := by
  cases parent with
  | none => exact h
  | some p =>
    unfold hierParentStep
    dsimp only
    split_ifs with hcond
    · obtain ⟨h1, h2, h3⟩ := h
      refine ⟨?_, ?_, ?_⟩
      · rw [List.nodup_cons]
        exact ⟨fun hmem => hcond.2 (h3 p hmem), h1⟩
      · intro c hc
        rcases List.mem_cons.mp hc with rfl | hc2
        · exact hpar c rfl
        · exact h2 c hc2
      · intro c hc
        rcases List.mem_cons.mp hc with rfl | hc2
        · exact List.mem_cons_self _ _
        · exact List.mem_cons_of_mem _ (h3 c hc2)
    · exact h

theorem hier_core_good (start : String) (nodes : List MapNode)
    (hierarchy : Option Hier) (fuel : Nat)
    (hstart : start ∈ nodes.map (·.id))
    (hroots : ∀ r ∈ hierRoots hierarchy, r ∈ nodes.map (·.id))
    (htree : ∀ e ∈ hierTree hierarchy, ∀ cd ∈ e.2, cd.concept ∈ nodes.map (·.id)) :
    GoodState (nodes.map (·.id)) (hierCore start hierarchy fuel) := by
  have hchild : ∀ k c, c ∈ get_children_from_tree k (hierTree hierarchy) →
      c ∈ nodes.map (·.id) := by
    intro k c hc
    obtain ⟨e, he, cd, hcd, rfl⟩ := get_children_mem hc
    exact htree e he cd hcd
  unfold hierCore
  split_ifs with hroot
  · apply foldl_good (nodes.map (·.id)) _ _ ?_ _ (startState_good hstart)
    intro st c hc hgood
    exact guardedPush_good hgood (hchild start c (List.mem_of_mem_take hc))
  · apply foldl_good (nodes.map (·.id)) _ _ ?_ _ ?_
    · intro st c hc hgood
      exact guardedPush_good hgood (hchild start c hc)
    · apply foldl_good (nodes.map (·.id)) _ _ ?_ _ ?_
      · intro st s hs hgood
        apply guardedPush_good hgood
        unfold hierSiblings at hs
        cases hpar : (hierRoots hierarchy).find? fun r =>
            is_descendant (hierTree hierarchy) fuel start r with
        | none =>
          rw [hpar] at hs
          simp at hs
        | some p =>
          rw [hpar] at hs
          dsimp only at hs
          split_ifs at hs with hp
          · exact hchild p s hs
          · simp at hs
      · apply hierParentStep_good (startState_good hstart)
        intro p hp
        exact hroots p (List.mem_of_find?_eq_some hp)

theorem hier_path_spec (start : String) (nodes : List MapNode)
    (hierarchy : Option Hier) (rnd : RandO) (fuel : Nat)
    (hstart : start ∈ nodes.map (·.id))
    (hroots : ∀ r ∈ hierRoots hierarchy, r ∈ nodes.map (·.id))
    (htree : ∀ e ∈ hierTree hierarchy, ∀ cd ∈ e.2, cd.concept ∈ nodes.map (·.id))
    (hsample : ∀ xs k, xs.Nodup → (rnd.sample xs k).Nodup ∧ ∀ y ∈ rnd.sample xs k, y ∈ xs) :
    (generate_hierarchical_path start nodes hierarchy rnd fuel).Nodup ∧
      ∀ c ∈ generate_hierarchical_path start nodes hierarchy rnd fuel,
        c ∈ nodes.map (·.id) := by
  unfold generate_hierarchical_path
  exact padWithSimilar_spec nodes rnd start _ hsample
    (hier_core_good start nodes hierarchy fuel hstart hroots htree)

theorem assocNext_spec {nodes : List MapNode} {links : List MapLink} {rnd : RandO}
    {st : PathSt} {current nc : String}
    (hlinks : ∀ l ∈ links, l.source ∈ nodes.map (·.id) ∧ l.target ∈ nodes.map (·.id))
    (hchoice : ∀ xs, xs ≠ [] → rnd.choice xs ∈ xs)
    (hnc : assocNext nodes links rnd st current = some nc) (hne : nc ≠ "") :
    nc ∈ nodes.map (·.id) ∧ nc ∉ st.visited := by
  unfold assocNext at hnc
  have hfirst : ∀ c, assocFirstUnvisited links st current = some c →
      c ∈ nodes.map (·.id) ∧ c ∉ st.visited := by
    intro c hc
    unfold assocFirstUnvisited at hc
    obtain ⟨p, hp, hpc⟩ := Option.map_eq_some'.mp hc
    have hmem : p ∈ graphAdj links current :=
      (List.perm_insertionSort _ _).mem_iff.mp (List.mem_of_find?_eq_some hp)
    have hpred := List.find?_some hp
    rw [decide_eq_true_eq] at hpred
    exact ⟨hpc ▸ graphAdj_fst_mem_ids hlinks hmem, hpc ▸ hpred⟩
  split_ifs at hnc with h1 h2
  · exact hfirst nc hnc
  · obtain rfl := Option.some.inj hnc
    have hunv : ((nodeIds nodes).filter fun n => n ∉ st.visited) ≠ [] := by
      intro hcontra
      rw [hcontra] at h2
      exact h2 rfl
    have hcmem := hchoice _ hunv
    have := List.mem_filter.mp hcmem
    refine ⟨(mem_pyDedup _ _).mp this.1, ?_⟩
    have h3 := this.2
    rw [decide_eq_true_eq] at h3
    exact h3
  · exact hfirst nc hnc

theorem assocWalk_spec (nodes : List MapNode) (links : List MapLink) (rnd : RandO)
    (hlinks : ∀ l ∈ links, l.source ∈ nodes.map (·.id) ∧ l.target ∈ nodes.map (·.id))
    (hchoice : ∀ xs, xs ≠ [] → rnd.choice xs ∈ xs) :
    ∀ (k : Nat) (st : PathSt) (current : String), GoodState (nodes.map (·.id)) st →
      (associativeWalk nodes links rnd k st current).Nodup ∧
      ∀ c ∈ associativeWalk nodes links rnd k st current, c ∈ nodes.map (·.id) := by
  intro k
  induction k with
  | zero => intro st current h; exact ⟨h.1, h.2.1⟩
  | succ n ih =>
    intro st current h
    rw [associativeWalk]
    split_ifs with hempty
    · exact ⟨h.1, h.2.1⟩
    · cases hnext : assocNext nodes links rnd st current with
      | none => exact ⟨h.1, h.2.1⟩
      | some nc =>
        dsimp only
        by_cases hne : nc ≠ ""
        · rw [if_pos hne]
          obtain ⟨hin, hvis⟩ := assocNext_spec hlinks hchoice hnext hne
          exact ih (pushConcept st nc) nc (pushConcept_good h hin hvis)
        · rw [if_neg hne]
          exact ⟨h.1, h.2.1⟩

theorem assoc_path_spec (start : String) (nodes : List MapNode)
    (links : List MapLink) (rnd : RandO)
    (hstart : start ∈ nodes.map (·.id))
    (hlinks : ∀ l ∈ links, l.source ∈ nodes.map (·.id) ∧ l.target ∈ nodes.map (·.id))
    (hchoice : ∀ xs, xs ≠ [] → rnd.choice xs ∈ xs) :
    (generate_associative_path start nodes links rnd).Nodup ∧
      ∀ c ∈ generate_associative_path start nodes links rnd, c ∈ nodes.map (·.id) := by
  unfold generate_associative_path
  exact assocWalk_spec nodes links rnd hlinks hchoice 5 _ start (startState_good hstart)

theorem takeSample_ok (xs : List String) (k : Nat) (h : xs.Nodup) :
    (xs.take k).Nodup ∧ ∀ y ∈ xs.take k, y ∈ xs :=
  ⟨(List.take_sublist k xs).nodup h, fun _ hy => List.mem_of_mem_take hy⟩

theorem headD_mem (xs : List String) (h : xs ≠ []) : xs.headD "" ∈ xs := by
  cases xs with
  | nil => exact absurd rfl h
  | cons a t => exact List.mem_cons_self _ _

/-- C9.  For every well formed knowledge map (link endpoints, cluster
concepts, hierarchy roots and tree children drawn from the node id set,
as the mapper produces), every start concept in the node id set, every
preference record and every random collaborator whose sample is a
duplicate free subset and whose choice picks an element, the generated
journey path has no duplicate ids and stays inside the node id set,
whichever strategy is selected. -/

theorem c9_path_invariants (m : KMap) (start : String) (prefs : Option Prefs)
    (rnd : RandO) (fuel : Nat)
    (hstart : start ∈ m.nodes.map (·.id))
    (hlinks : ∀ l ∈ m.links,
      l.source ∈ m.nodes.map (·.id) ∧ l.target ∈ m.nodes.map (·.id))
    (hclusters : ∀ cl ∈ m.clusters, ∀ c ∈ cl.concepts, c ∈ m.nodes.map (·.id))
    (hroots : ∀ r ∈ hierRoots m.hierarchy, r ∈ m.nodes.map (·.id))
    (htree : ∀ e ∈ hierTree m.hierarchy, ∀ cd ∈ e.2, cd.concept ∈ m.nodes.map (·.id))
    (hsample : ∀ xs k, xs.Nodup → (rnd.sample xs k).Nodup ∧ ∀ y ∈ rnd.sample xs k, y ∈ xs)
    (hchoice : ∀ xs, xs ≠ [] → rnd.choice xs ∈ xs) :
    (generate_journey (some m) start prefs rnd fuel).path.Nodup ∧
      ∀ c ∈ (generate_journey (some m) start prefs rnd fuel).path,
        c ∈ m.nodes.map (·.id) := by
  by_cases hs : start = ""
  · have hdef : generate_journey (some m) start prefs rnd fuel = defaultJourney start := by
      unfold generate_journey
      dsimp only
      rw [if_pos hs]
    rw [hdef]
    exact ⟨List.nodup_nil, by intro c hc; simp [defaultJourney] at hc⟩
  · have hany : (m.nodes.any fun n => n.id = start) = true := by
      rw [List.any_eq_true]
      obtain ⟨n, hn, hid⟩ := List.mem_map.mp hstart
      exact ⟨n, hn, by rw [decide_eq_true_eq]; exact hid⟩
    have hpath : (generate_journey (some m) start prefs rnd fuel).path =
        (if determine_journey_type start m.nodes prefs = "pattern_based" then
          generate_pattern_based_path start m.nodes m.links m.clusters rnd
        else if determine_journey_type start m.nodes prefs = "hierarchical" then
          generate_hierarchical_path start m.nodes m.hierarchy rnd fuel
        else if determine_journey_type start m.nodes prefs = "associative" then
          generate_associative_path start m.nodes m.links rnd
        else generate_default_path start m.nodes m.links rnd) := by
      unfold generate_journey
      dsimp only
      rw [if_neg hs]
      rw [if_neg (fun hcon => hcon hany)]
    rw [hpath]
    split_ifs with h1 h2 h3
    · exact pattern_path_spec start m.nodes m.links m.clusters rnd
        hstart hlinks hclusters hsample
    · exact hier_path_spec start m.nodes m.hierarchy rnd fuel
        hstart hroots htree hsample
    · exact assoc_path_spec start m.nodes m.links rnd hstart hlinks hchoice
    · exact default_path_spec start m.nodes m.links rnd hstart hlinks hsample

/-- C9 witness. -/

theorem c9_path_invariants_witness :
    (generate_journey (some c9Map) "a" none c9Rnd 0).path.Nodup ∧
      ∀ c ∈ (generate_journey (some c9Map) "a" none c9Rnd 0).path,
        c ∈ c9Map.nodes.map (·.id) :=
  c9_path_invariants c9Map "a" none c9Rnd 0 (by decide) (by decide) (by decide)
    (by decide) (by decide) (fun xs k h => takeSample_ok xs k h)
    (fun xs h => headD_mem xs h)

end Cognify
